import Mathlib

/-!
Verification of the choreographer color-sequencing engine.

This file gives a shallow embedding of the engine in `src/engine.rs`,
`src/behaviors.rs` and `src/lib.rs`, and proves the specification claims
about it.  Machine integers (`u32`) are modelled as `Nat` with explicit
wrapping operations modulo `2 ^ 32`; `f32` quantities that feed only into
color payloads are modelled over `ℚ`, with the trigonometric evaluation of
the oscillator abstracted as a parameter (`WaveModel`) over which every
theorem quantifies, since no claim depends on waveform values.  Stateful
Rust methods become explicit state-passing functions.
-/

set_option maxHeartbeats 1000000

namespace Choreographer

/-- The modulus of the 32-bit unsigned tick type (`u32`). -/
def u32size : Nat := 4294967296

/-- Wrapping 32-bit addition (`u32::wrapping_add`). -/
def wadd (a b : Nat) : Nat := (a + b) % u32size

/-- Wrapping 32-bit subtraction (`u32::wrapping_sub`), for inputs below `u32size`. -/
def wsub (a b : Nat) : Nat := (a + (u32size - b % u32size)) % u32size

/-- 32-bit multiplication with release-mode wrapping semantics. -/
def wmul (a b : Nat) : Nat := (a * b) % u32size

/-- The `RGB8` color triple from the external `smart_leds` crate: three `u8` channels. -/
structure RGB8 where
  r : Nat
  g : Nat
  b : Nat
deriving DecidableEq, Repr

/-- `smart_leds::colors::BLACK`. -/
def BLACK : RGB8 := ⟨0, 0, 0⟩

/-- Modelled from the spec: the external `groundhog::RollingTimer` capability
(spec section 4.1).  `millis_since` computes the elapsed ticks with
wraparound-safe unsigned subtraction of the reference from the current tick,
converted to milliseconds by dividing by `TICKS_PER_SECOND / 1000` — the same
millisecond-to-tick scale the engine itself uses in `Context::calc_end`.
The current tick (`get_ticks`) is passed explicitly as `now`; the rate
constant is passed as `tps`. -/
def millis_since (tps now start : Nat) : Nat :=
  wsub now start / (tps / 1000)

/-- The wave-function selector stored in `Cycler::func`: the source stores a raw
`fn(f32) -> f32` pointer that is always either `f32::sin` or `f32::cos`; we model
it as the two-valued tag the pointer ranges over. -/
inductive WaveFn where
  | sin : WaveFn
  | cos : WaveFn
deriving DecidableEq, Repr

/-- Abstraction of the `f32` trigonometric pipeline of `Cycler::poll`: given the
selector and the normalized position `x = deltaf / period`, `mag` models the
rectified amplitude `|f(x * 2 * PI)|` as computed in `f32` (including the float
constant `PI` and all rounding).  Every theorem below quantifies over the model,
so its conclusions hold for the actual `f32` semantics; no claim depends on the
numeric amplitude, only on whether a poll yields a color at all. -/
structure WaveModel where
  mag : WaveFn → ℚ → ℚ

/-- Saturating `f32 as u8` cast (truncation toward zero, clamped to `[0, 255]`). -/
def ratToU8 (q : ℚ) : Nat := (min 255 (max 0 ⌊q⌋)).toNat

/-- Truncation of a rational toward zero, as the `f32 as i16` cast truncates. -/
def ratTrunc (q : ℚ) : Int := Int.sign q.num * (q.num.natAbs / q.den : Nat)

/-- Saturating `f32 as i16` cast. -/
def ratToI16 (q : ℚ) : Int := min 32767 (max (-32768) (ratTrunc q))

/-- Bit-truncating `i16 as u8` cast: the low byte of the two's-complement value. -/
def i16toU8 (z : Int) : Nat := (z % 256).toNat

/-- The phase auto-advance policy `AutoIncr` of `engine.rs`. -/
inductive AutoIncr where
  | Never : AutoIncr
  | Once : AutoIncr
  | Forever : AutoIncr
deriving DecidableEq, Repr

/-- `AutoIncr::default()` is `Never`. -/
def AutoIncr.default : AutoIncr := .Never

/-- The behavior-independent timing/color data of an `Action` (`Context` in
`engine.rs`).  `start_tick`, `duration_ms` and `phase_offset_ms` are `u32`;
`period_ms` is `f32` in the source and modelled over `ℚ`. -/
structure Context where
  start_tick : Nat
  auto_incr_phase : AutoIncr
  period_ms : ℚ
  duration_ms : Nat
  phase_offset_ms : Nat
  last_color : RGB8
  color : RGB8
deriving DecidableEq, Repr

/-- `Context::default()`: all-zero timing, `Never` phase policy, black colors. -/
def Context.default : Context :=
  { start_tick := 0, auto_incr_phase := .Never, period_ms := 0, duration_ms := 0
    phase_offset_ms := 0, last_color := BLACK, color := BLACK }

/-- `Context::calc_end`: `start_tick.wrapping_add(duration_ms * (TICKS_PER_SECOND / 1000))`. -/
def Context.calc_end (tps : Nat) (c : Context) : Nat :=
  wadd c.start_tick (wmul c.duration_ms (tps / 1000))

/-- `Context::calc_end_phase`: `phase_offset_ms.wrapping_add(duration_ms)`. -/
def Context.calc_end_phase (c : Context) : Nat :=
  wadd c.phase_offset_ms c.duration_ms

/-- `Context::reinit`: install the new start tick and hand-off color, and update
the phase offset according to the auto-advance policy. -/
def Context.reinit (c : Context) (start start_ph : Nat) (lastColor : RGB8) : Context :=
  let c1 := { c with start_tick := start, last_color := lastColor }
  match c1.auto_incr_phase with
  | .Never => c1
  | .Once => { c1 with phase_offset_ms := start_ph, auto_incr_phase := .Never }
  | .Forever => { c1 with phase_offset_ms := start_ph }

/-- `StayColor` of `behaviors.rs`: a unit struct (solid constant color). -/
structure StayColor where
deriving DecidableEq, Repr

/-- `StayColor::poll`: the target color while `millis_since(start_tick) < duration_ms`,
`None` at and after the duration. -/
def StayColor.poll (tps now : Nat) (c : Context) : Option RGB8 :=
  if c.duration_ms ≤ millis_since tps now c.start_tick then none else some c.color

/-- `Cycler` of `behaviors.rs`: the sine/cosine oscillator. -/
structure Cycler where
  func : WaveFn
deriving DecidableEq, Repr

/-- `Cycler::new()` starts low (sine). -/
def Cycler.new : Cycler := ⟨.sin⟩

/-- `Cycler::poll`: `None` once `delta >= duration_ms`; otherwise the rectified
wave amplitude at `(delta wrapping_add phase_offset) / (period_ms * 2)` scaled
into each color channel.  The trigonometric evaluation is `W.mag`. -/
def Cycler.poll (W : WaveModel) (tps now : Nat) (cy : Cycler) (c : Context) : Option RGB8 :=
  let delta := millis_since tps now c.start_tick
  if c.duration_ms ≤ delta then none
  else
    let period : ℚ := c.period_ms * 2
    let deltaf : ℚ := (wadd delta c.phase_offset_ms : Nat)
    let normalized := deltaf / period
    let absOut := W.mag cy.func normalized
    some { r := ratToU8 (absOut * (c.color.r : ℚ))
           g := ratToU8 (absOut * (c.color.g : ℚ))
           b := ratToU8 (absOut * (c.color.b : ℚ)) }

/-- `SeekColor` of `behaviors.rs`: a unit struct (linear interpolation from the
hand-off color to the target color). -/
structure SeekColor where
deriving DecidableEq, Repr

/-- `SeekColor::poll`: `None` once `delta >= duration_ms`; otherwise each channel
interpolates linearly from `last_color` to `color`, with the source's `i16`/`u8`
casts modelled exactly and its `f32` arithmetic modelled over `ℚ`. -/
def SeekColor.poll (tps now : Nat) (c : Context) : Option RGB8 :=
  let delta := millis_since tps now c.start_tick
  if c.duration_ms ≤ delta then none
  else
    let dr : ℚ := ((c.color.r : Int) - (c.last_color.r : Int) : Int)
    let dg : ℚ := ((c.color.g : Int) - (c.last_color.g : Int) : Int)
    let db : ℚ := ((c.color.b : Int) - (c.last_color.b : Int) : Int)
    let normDt : ℚ := (delta : ℚ) / (c.duration_ms : ℚ)
    some { r := i16toU8 ((c.last_color.r : Int) + ratToI16 (dr * normDt))
           g := i16toU8 ((c.last_color.g : Int) + ratToI16 (dg * normDt))
           b := i16toU8 ((c.last_color.b : Int) + ratToI16 (db * normDt)) }

/-- `FadeColor` of `behaviors.rs`: a bounded fade, wrapping a `Cycler`. -/
structure FadeColor where
  cycler : Cycler
deriving DecidableEq, Repr

/-- `FadeColor::new_fade_up`: a start-low cycler; mutates the passed context,
setting `period_ms = duration_ms * 2`.  Returns the behavior and the updated context. -/
def FadeColor.new_fade_up (c : Context) : FadeColor × Context :=
  (⟨⟨.sin⟩⟩, { c with period_ms := (c.duration_ms : ℚ) * 2 })

/-- `FadeColor::new_fade_down`: a start-high cycler; mutates the passed context,
setting `period_ms = duration_ms * 2`.  Returns the behavior and the updated context. -/
def FadeColor.new_fade_down (c : Context) : FadeColor × Context :=
  (⟨⟨.cos⟩⟩, { c with period_ms := (c.duration_ms : ℚ) * 2 })

/-- `FadeColor::poll` delegates to the wrapped cycler. -/
def FadeColor.poll (W : WaveModel) (tps now : Nat) (f : FadeColor) (c : Context) : Option RGB8 :=
  f.cycler.poll W tps now c

/-- The `InnerActionKind` enum of `engine.rs`.  `StayColor` and `SeekColor` are
unit structs, so their payloads carry no data. -/
inductive InnerActionKind where
  | Sin : Cycler → InnerActionKind
  | Static : InnerActionKind
  | Fade : FadeColor → InnerActionKind
  | Seek : InnerActionKind
deriving DecidableEq, Repr

/-- `InnerAction` of `engine.rs`: a context plus a behavior kind. -/
structure InnerAction where
  context : Context
  kind : InnerActionKind
deriving DecidableEq, Repr

/-- `InnerAction::default()`: default context with a `Static` (stay-color) kind. -/
def InnerAction.default : InnerAction := ⟨Context.default, .Static⟩

/-- `InnerAction::poll`: dispatch to the behavior variant (read-only). -/
def InnerAction.poll (W : WaveModel) (tps now : Nat) (ia : InnerAction) : Option RGB8 :=
  match ia.kind with
  | .Sin cy => cy.poll W tps now ia.context
  | .Static => StayColor.poll tps now ia.context
  | .Fade f => f.poll W tps now ia.context
  | .Seek => SeekColor.poll tps now ia.context

/-- The `LoopBehavior` enum of `engine.rs`. -/
inductive LoopBehavior where
  | OneShot : LoopBehavior
  | LoopForever : LoopBehavior
  | LoopN : Nat → Nat → LoopBehavior
  | Nop : LoopBehavior
deriving DecidableEq, Repr

/-- `LoopBehavior::default()` is `Nop`. -/
def LoopBehavior.default : LoopBehavior := .Nop

/-- `Action` of `engine.rs`: an inner action plus its own repeat policy. -/
structure Action where
  action : InnerAction
  behavior : LoopBehavior
deriving DecidableEq, Repr

instance : Inhabited Action := ⟨⟨InnerAction.default, LoopBehavior.default⟩⟩

/-- `Action::reinit`: reinitialize the context and reset a `LoopN` counter to 0. -/
def Action.reinit (a : Action) (start end_ph : Nat) (lastColor : RGB8) : Action :=
  { action := { a.action with context := a.action.context.reinit start end_ph lastColor }
    behavior :=
      match a.behavior with
      | .LoopN _ cycles => .LoopN 0 cycles
      | b => b }

/-- `Action::poll`, with the mutation of the action made explicit in the result.
`OneShot` delegates; `LoopForever` retries once after reinitializing at the
computed end tick / end phase; `LoopN` increments `current` and retries once
without reinitializing; `Nop` yields `None`. -/
def Action.poll (W : WaveModel) (tps now : Nat) (a : Action) : Option RGB8 × Action :=
  match a.behavior with
  | .OneShot => (a.action.poll W tps now, a)
  | .LoopForever =>
    match a.action.poll W tps now with
    | some c => (some c, a)
    | none =>
      let e := a.action.context.calc_end tps
      let eph := a.action.context.calc_end_phase
      let lc := a.action.context.color
      let ia := { a.action with context := a.action.context.reinit e eph lc }
      (ia.poll W tps now, { a with action := ia })
  | .LoopN current cycles =>
    match a.action.poll W tps now with
    | some c => (some c, a)
    | none =>
      if current < cycles then
        (a.action.poll W tps now, { a with behavior := .LoopN (current + 1) cycles })
      else (none, a)
  | .Nop => (none, a)

/-- The `heapless::Vec::extend_from_slice` contract used by `Sequence::set`:
append the items if capacity suffices, otherwise fail (the caller discards the
failure with `.ok()`). -/
def vecExtendFromSlice (cap : Nat) (v xs : List Action) : Except Unit (List Action) :=
  if v.length + xs.length ≤ cap then .ok (v ++ xs) else .error ()

/-- `Sequence` of `engine.rs`: a fixed-capacity list of actions, a cursor, an
overall repeat policy, and the lazy first-poll flag.  The capacity `N` is a
const generic in the source; here it parameterizes `set`. -/
structure Sequence where
  seq : List Action
  position : Nat
  behavior : LoopBehavior
  never_run : Bool
deriving DecidableEq, Repr

/-- `Sequence::new()`: const-constructible empty sequence with a `Nop` policy. -/
def Sequence.new : Sequence :=
  { seq := [], position := 0, behavior := .Nop, never_run := true }

/-- `Sequence::empty()`: empty sequence with a `OneShot` policy. -/
def Sequence.empty : Sequence :=
  { seq := [], position := 0, behavior := .OneShot, never_run := true }

/-- `Sequence::clear()`: empty the storage and reset the cursor. -/
def Sequence.clear (s : Sequence) : Sequence :=
  { s with seq := [], position := 0 }

/-- `Sequence::set(actions, behavior)` for capacity `N`: clear, mark never-run,
extend from the first `min(N, actions.len())` actions, install the policy. -/
def Sequence.set (N : Nat) (s : Sequence) (actions : List Action)
    (behavior : LoopBehavior) : Sequence :=
  let amt := min N actions.length
  let s1 := s.clear
  let s2 := { s1 with never_run := true }
  let sq :=
    match vecExtendFromSlice N s2.seq (actions.take amt) with
    | .ok v => v
    | .error _ => s2.seq
  { s2 with seq := sq, behavior := behavior }

/-- `Sequence::poll()`, with the state threading made explicit.  Mirrors
`engine.rs` lines 138-208: the emptiness/terminal guard, the lazy first-run
reinitialization against the live timer, the poll of the current action, and
the per-policy advance with one step of lookahead on exhaustion. -/
def Sequence.poll (W : WaveModel) (tps now : Nat) (s : Sequence) : Option RGB8 × Sequence :=
  if s.seq.isEmpty ∨ s.seq.length ≤ s.position then (none, s)
  else
    let s1 :=
      if s.never_run then
        let a0 := s.seq.getD s.position default
        let ph := a0.action.context.phase_offset_ms
        { s with seq := s.seq.set s.position (a0.reinit now ph BLACK), never_run := false }
      else s
    match s1.behavior with
    | .OneShot =>
      let pr := (s1.seq.getD s1.position default).poll W tps now
      let s2 := { s1 with seq := s1.seq.set s1.position pr.2 }
      match pr.1 with
      | some c => (some c, s2)
      | none =>
        let aex := s2.seq.getD s2.position default
        let e := aex.action.context.calc_end tps
        let eph := aex.action.context.calc_end_phase
        let lc := aex.action.context.color
        let p1 := s2.position + 1
        if p1 < s2.seq.length then
          let anext := (s2.seq.getD p1 default).reinit e eph lc
          let pr2 := anext.poll W tps now
          (pr2.1, { s2 with position := p1, seq := s2.seq.set p1 pr2.2 })
        else (none, { s2 with position := p1 })
    | .LoopForever =>
      let pr := (s1.seq.getD s1.position default).poll W tps now
      let s2 := { s1 with seq := s1.seq.set s1.position pr.2 }
      match pr.1 with
      | some c => (some c, s2)
      | none =>
        let aex := s2.seq.getD s2.position default
        let e := aex.action.context.calc_end tps
        let eph := aex.action.context.calc_end_phase
        let lc := aex.action.context.color
        let p1 := s2.position + 1
        let p2 := if s2.seq.length ≤ p1 then 0 else p1
        let anext := (s2.seq.getD p2 default).reinit e eph lc
        let pr2 := anext.poll W tps now
        (pr2.1, { s2 with position := p2, seq := s2.seq.set p2 pr2.2 })
    | .LoopN current cycles =>
      let pr := (s1.seq.getD s1.position default).poll W tps now
      let s2 := { s1 with seq := s1.seq.set s1.position pr.2 }
      match pr.1 with
      | some c => (some c, s2)
      | none =>
        let aex := s2.seq.getD s2.position default
        let e := aex.action.context.calc_end tps
        let eph := aex.action.context.calc_end_phase
        let lc := aex.action.context.color
        let p1 := s2.position + 1
        if s2.seq.length ≤ p1 then
          if current < cycles then
            let anext := (s2.seq.getD 0 default).reinit e eph lc
            let pr2 := anext.poll W tps now
            (pr2.1, { s2 with position := 0, behavior := .LoopN (current + 1) cycles,
                              seq := s2.seq.set 0 pr2.2 })
          else (none, { s2 with position := p1 })
        else
          let anext := (s2.seq.getD p1 default).reinit e eph lc
          let pr2 := anext.poll W tps now
          (pr2.1, { s2 with position := p1, seq := s2.seq.set p1 pr2.2 })
    | .Nop => (none, s1)

/-- Iterated polling: the outputs of polling `s` once at each tick of `ts` in order. -/
def pollOuts (W : WaveModel) (tps : Nat) : List Nat → Sequence → List (Option RGB8)
  | [], _ => []
  | t :: ts, s =>
    let r := Sequence.poll W tps t s
    r.1 :: pollOuts W tps ts r.2

/-- The final sequence state after polling once at each tick of `ts` in order. -/
def pollEnd (W : WaveModel) (tps : Nat) : List Nat → Sequence → Sequence
  | [], s => s
  | t :: ts, s => pollEnd W tps ts (Sequence.poll W tps t s).2

/-- `ActionBuilder` of `engine.rs`. -/
structure ActionBuilder where
  act : Action
deriving DecidableEq, Repr

/-- `PhaseIncr` of `engine.rs`. -/
inductive PhaseIncr where
  | Millis : Nat → PhaseIncr
  | AutoIncr : PhaseIncr
  | AutoIncrOnStart : PhaseIncr
deriving DecidableEq, Repr

/-- `ActionBuilder::new()`: default inner action, default (`Nop`) loop behavior. -/
def ActionBuilder.new : ActionBuilder :=
  ⟨{ action := InnerAction.default, behavior := LoopBehavior.default }⟩

/-- `ActionBuilder::finish()`. -/
def ActionBuilder.finish (b : ActionBuilder) : Action := b.act

/-- `ActionBuilder::times(ct)`. -/
def ActionBuilder.times (b : ActionBuilder) (ct : Nat) : ActionBuilder :=
  ⟨{ b.act with behavior := .LoopN 0 ct }⟩

/-- `ActionBuilder::once()`. -/
def ActionBuilder.once (b : ActionBuilder) : ActionBuilder :=
  ⟨{ b.act with behavior := .OneShot }⟩

/-- `ActionBuilder::forever()`. -/
def ActionBuilder.forever (b : ActionBuilder) : ActionBuilder :=
  ⟨{ b.act with behavior := .LoopForever }⟩

/-- `ActionBuilder::color(color)`. -/
def ActionBuilder.color (b : ActionBuilder) (color : RGB8) : ActionBuilder :=
  ⟨{ b.act with action := { b.act.action with context := { b.act.action.context with color := color } } }⟩

/-- `ActionBuilder::for_ms(duration)`: set the duration, and for a `Fade` kind
additionally set `period_ms = duration * 4` (`duration.lossy_into() * 4.0`). -/
def ActionBuilder.for_ms (b : ActionBuilder) (duration : Nat) : ActionBuilder :=
  let c1 := { b.act.action.context with duration_ms := duration }
  let c2 :=
    match b.act.action.kind with
    | .Fade _ => { c1 with period_ms := (duration : ℚ) * 4 }
    | _ => c1
  ⟨{ b.act with action := { b.act.action with context := c2 } }⟩

/-- `ActionBuilder::phase_offset_ms(phase_offset_ms)`. -/
def ActionBuilder.phase_offset_ms (b : ActionBuilder) (p : PhaseIncr) : ActionBuilder :=
  let pi :=
    match p with
    | .Millis ms => (ms, AutoIncr.Never)
    | .AutoIncr => (0, AutoIncr.Forever)
    | .AutoIncrOnStart => (0, AutoIncr.Once)
  ⟨{ b.act with action := { b.act.action with context :=
      { b.act.action.context with phase_offset_ms := pi.1, auto_incr_phase := pi.2 } } }⟩

/-- `ActionBuilder::period_ms(duration)`. -/
def ActionBuilder.period_ms (b : ActionBuilder) (duration : ℚ) : ActionBuilder :=
  ⟨{ b.act with action := { b.act.action with context :=
      { b.act.action.context with period_ms := duration } } }⟩

/-- `ActionBuilder::sin()`: a start-low cycler kind. -/
def ActionBuilder.sin (b : ActionBuilder) : ActionBuilder :=
  ⟨{ b.act with action := { b.act.action with kind := .Sin ⟨.sin⟩ } }⟩

/-- `ActionBuilder::cos()`: a start-high cycler kind. -/
def ActionBuilder.cos (b : ActionBuilder) : ActionBuilder :=
  ⟨{ b.act with action := { b.act.action with kind := .Sin ⟨.cos⟩ } }⟩

/-- `ActionBuilder::seek()`. -/
def ActionBuilder.seek (b : ActionBuilder) : ActionBuilder :=
  ⟨{ b.act with action := { b.act.action with kind := .Seek } }⟩

/-- `ActionBuilder::solid()`. -/
def ActionBuilder.solid (b : ActionBuilder) : ActionBuilder :=
  ⟨{ b.act with action := { b.act.action with kind := .Static } }⟩

/-- `ActionBuilder::fade_up()`: install a fade-up kind, which on construction
overwrites the context's `period_ms` with `duration_ms * 2`. -/
def ActionBuilder.fade_up (b : ActionBuilder) : ActionBuilder :=
  let fc := FadeColor.new_fade_up b.act.action.context
  ⟨{ b.act with action := { context := fc.2, kind := .Fade fc.1 } }⟩

/-- `ActionBuilder::fade_down()`: install a fade-down kind, which on construction
overwrites the context's `period_ms` with `duration_ms * 2`. -/
def ActionBuilder.fade_down (b : ActionBuilder) : ActionBuilder :=
  let fc := FadeColor.new_fade_down b.act.action.context
  ⟨{ b.act with action := { context := fc.2, kind := .Fade fc.1 } }⟩

/-- A trivial wave model (zero amplitude), used to instantiate theorems at
concrete inputs; the theorems themselves hold for every wave model. -/
def W0 : WaveModel := ⟨fun _ _ => 0⟩

/-- A concrete stay-color step of duration `d` with its own `OneShot` repeat
policy, as the builder chain `solid().color(col).for_ms(d).once()` produces. -/
def holdA (d : Nat) (col : RGB8) : Action :=
  { action := { context := { Context.default with duration_ms := d, color := col }
                kind := .Static }
    behavior := .OneShot }

/-- A concrete `Action` with duration 0 and a `LoopForever` repeat policy. -/
def zeroForever : Action :=
  { action := { context := Context.default, kind := .Static }
    behavior := .LoopForever }

/-- A concrete `Action` with duration 0 and a `Times` (`LoopN 0 1`) repeat policy. -/
def zeroTimes : Action :=
  { action := { context := Context.default, kind := .Static }
    behavior := .LoopN 0 1 }

/-- Prefix sums of the durations of the unrolled (cyclically repeated) step
list: `uS ds j` is the total of the first `j` unrolled durations, in ms. -/
def uS (ds : List Nat) : Nat → Nat
  | 0 => 0
  | j + 1 => uS ds j + ds.getD (j % ds.length) 0

/-- The tick at which the `j`-th unrolled step starts (and the `j-1`-st ends),
for a run whose first step starts at tick `t0` with `m` ticks per millisecond. -/
def boundary (ds : List Nat) (t0 m j : Nat) : Nat := t0 + uS ds j * m

/-- The number of unrolled step boundaries (among the first `cnt`) at or before
tick `t`: the index of the unrolled step that is active at `t`. -/
def gidx (ds : List Nat) (cnt t0 m t : Nat) : Nat :=
  (List.range cnt).countP (fun j => boundary ds t0 m (j + 1) ≤ t)

/-- The run invariant tying a polled sequence state to the index `g` of the
active unrolled step.  `useN` selects the overall policy shape: `LoopN`
(sequence-level `Times`, with `current = g / len` capped at `k`) when true,
`OneShot` (with `k = 0`) when false.  `tl` is the tick of the last completed
poll; `g` equals the number of unrolled step boundaries at or before `tl`
while the run has not ended, and the terminal state has `position = len`. -/
structure RunInv (useN : Bool) (tps : Nat) (ds : List Nat) (k t0 : Nat)
    (s : Sequence) (g tl : Nat) : Prop where
  never_run : s.never_run = false
  len_eq : s.seq.length = ds.length
  ds_ne : ds ≠ []
  acts_beh : ∀ j, j < ds.length → (s.seq.getD j default).behavior = .OneShot
  acts_dur : ∀ j, j < ds.length →
    (s.seq.getD j default).action.context.duration_ms = ds.getD j 0
  g_le : g ≤ (k + 1) * ds.length
  pos_eq : g < (k + 1) * ds.length → s.position = g % ds.length
  pos_term : g = (k + 1) * ds.length → s.position = ds.length
  start_eq : g < (k + 1) * ds.length →
    (s.seq.getD (g % ds.length) default).action.context.start_tick =
      boundary ds t0 (tps / 1000) g
  beh_ok : if useN then s.behavior = .LoopN (min k (g / ds.length)) k
           else s.behavior = .OneShot ∧ k = 0
  time_lo : t0 ≤ tl
  time_g : tl < boundary ds t0 (tps / 1000) ((k + 1) * ds.length) →
    g = gidx ds ((k + 1) * ds.length) t0 (tps / 1000) tl

section BasicLemmas

lemma u32size_pos : 0 < u32size := by norm_num [u32size]

lemma wadd_eq {a b : Nat} (h : a + b < u32size) : wadd a b = a + b :=
  Nat.mod_eq_of_lt h

lemma wmul_eq {a b : Nat} (h : a * b < u32size) : wmul a b = a * b :=
  Nat.mod_eq_of_lt h

lemma wsub_eq {a b : Nat} (hba : b ≤ a) (ha : a < u32size) : wsub a b = a - b := by
  unfold wsub
  have hb : b < u32size := lt_of_le_of_lt hba ha
  rw [Nat.mod_eq_of_lt hb]
  have h1 : a + (u32size - b) = (a - b) + u32size := by omega
  rw [h1, Nat.add_mod_right, Nat.mod_eq_of_lt (by omega)]

lemma millis_eq {tps now start : Nat} (h1 : start ≤ now) (h2 : now < u32size) :
    millis_since tps now start = (now - start) / (tps / 1000) := by
  unfold millis_since
  rw [wsub_eq h1 h2]

lemma millis_lt_iff {tps now start d : Nat} (hm : 0 < tps / 1000)
    (h1 : start ≤ now) (h2 : now < u32size) :
    millis_since tps now start < d ↔ now < start + d * (tps / 1000) := by
  rw [millis_eq h1 h2, Nat.div_lt_iff_lt_mul hm]
  omega

lemma InnerAction.poll_isSome (W : WaveModel) (tps now : Nat) (ia : InnerAction) :
    (ia.poll W tps now).isSome = true ↔
      millis_since tps now ia.context.start_tick < ia.context.duration_ms := by
  cases hk : ia.kind <;>
    simp only [InnerAction.poll, hk, StayColor.poll, Cycler.poll, SeekColor.poll,
      FadeColor.poll] <;>
    split <;> simp <;> omega

lemma InnerAction.poll_eq_none (W : WaveModel) (tps now : Nat) (ia : InnerAction) :
    ia.poll W tps now = none ↔
      ia.context.duration_ms ≤ millis_since tps now ia.context.start_tick := by
  rw [← Option.not_isSome_iff_eq_none, InnerAction.poll_isSome]
  omega

@[simp] lemma Context.reinit_duration (c : Context) (s p : Nat) (l : RGB8) :
    (c.reinit s p l).duration_ms = c.duration_ms := by
  unfold Context.reinit
  cases c.auto_incr_phase <;> rfl

@[simp] lemma Context.reinit_start (c : Context) (s p : Nat) (l : RGB8) :
    (c.reinit s p l).start_tick = s := by
  unfold Context.reinit
  cases c.auto_incr_phase <;> rfl

@[simp] lemma Context.reinit_last_color (c : Context) (s p : Nat) (l : RGB8) :
    (c.reinit s p l).last_color = l := by
  unfold Context.reinit
  cases c.auto_incr_phase <;> rfl

@[simp] lemma Context.reinit_color (c : Context) (s p : Nat) (l : RGB8) :
    (c.reinit s p l).color = c.color := by
  unfold Context.reinit
  cases c.auto_incr_phase <;> rfl

@[simp] lemma Context.reinit_period (c : Context) (s p : Nat) (l : RGB8) :
    (c.reinit s p l).period_ms = c.period_ms := by
  unfold Context.reinit
  cases c.auto_incr_phase <;> rfl

@[simp] lemma Action.reinit_keeps_duration (a : Action) (s p : Nat) (l : RGB8) :
    (a.reinit s p l).action.context.duration_ms = a.action.context.duration_ms := by
  simp [Action.reinit]

@[simp] lemma Action.reinit_sets_start (a : Action) (s p : Nat) (l : RGB8) :
    (a.reinit s p l).action.context.start_tick = s := by
  simp [Action.reinit]

@[simp] lemma Action.reinit_kind (a : Action) (s p : Nat) (l : RGB8) :
    (a.reinit s p l).action.kind = a.action.kind := by
  simp [Action.reinit]

lemma Action.reinit_behavior_oneShot (a : Action) (s p : Nat) (l : RGB8)
    (h : a.behavior = .OneShot) : (a.reinit s p l).behavior = .OneShot := by
  simp [Action.reinit, h]

lemma Action.poll_oneShot (W : WaveModel) (tps now : Nat) (a : Action)
    (h : a.behavior = .OneShot) : a.poll W tps now = (a.action.poll W tps now, a) := by
  unfold Action.poll
  rw [h]

end BasicLemmas

section EasyClaims

lemma innerPoll_none_of_dur_zero (W : WaveModel) (tps now : Nat) (ia : InnerAction)
    (h : ia.context.duration_ms = 0) : ia.poll W tps now = none := by
  rw [InnerAction.poll_eq_none, h]
  exact Nat.zero_le _

/-- C2: a step of duration 0 completes on the very first poll — the inner
behavior returns `None` under every behavior variant — and `Action::poll`
returns `None` under every repeat policy, including `LoopForever`, whose single
bounded retry (reinit then one more inner poll) also exhausts immediately; the
embedding of `Action::poll` is a total function, so polling terminates. -/
theorem C2_zero_duration (W : WaveModel) (tps now : Nat) (a : Action)
    (h : a.action.context.duration_ms = 0) :
    a.action.poll W tps now = none ∧ (a.poll W tps now).1 = none := by
  have hin := innerPoll_none_of_dur_zero W tps now a.action h
  refine ⟨hin, ?_⟩
  cases hb : a.behavior
  case OneShot => simp [Action.poll, hb, hin]
  case LoopForever =>
    have hin2 := innerPoll_none_of_dur_zero W tps now
      { a.action with
        context := a.action.context.reinit (a.action.context.calc_end tps)
          a.action.context.calc_end_phase a.action.context.color }
      (by simp [h])
    simp [Action.poll, hb, hin, hin2]
  case LoopN cur cyc =>
    rcases Nat.lt_or_ge cur cyc with hlt | hge
    · simp [Action.poll, hb, hin, hlt]
    · simp [Action.poll, hb, hin, Nat.not_lt.2 hge]
  case Nop => simp [Action.poll, hb]

/-- C2 witness: a concrete zero-duration `LoopForever` action polls to `None`. -/
theorem C2_zero_duration_witness :
    zeroForever.action.poll W0 1000 0 = none ∧ (zeroForever.poll W0 1000 0).1 = none :=
  C2_zero_duration W0 1000 0 zeroForever rfl

/-- C3: for an Action with repeat policy `Times` (`LoopN current total`), when
the inner behavior exhausts: if `current < total` the counter is incremented and
the behavior is polled exactly once more with the context untouched (start tick
and phase unchanged — only the `behavior` field of the action changes); if
`current = total`, `Action::poll` returns `None` with the action unchanged. -/
theorem C3_times_retry (W : WaveModel) (tps now : Nat) (a : Action) (cur tot : Nat)
    (hb : a.behavior = .LoopN cur tot) (hex : a.action.poll W tps now = none) :
    (cur < tot →
      a.poll W tps now = (a.action.poll W tps now, { a with behavior := .LoopN (cur + 1) tot })) ∧
    (cur = tot → a.poll W tps now = (none, a)) := by
  constructor
  · intro hlt
    unfold Action.poll
    rw [hb]
    simp [hex, hlt]
  · intro he
    unfold Action.poll
    rw [hb]
    simp [hex, he]

/-- C3 witness: a concrete exhausted `Times{current=0,total=1}` action retries
once, incrementing only the counter. -/
theorem C3_times_retry_witness :
    zeroTimes.poll W0 1000 0 =
      (zeroTimes.action.poll W0 1000 0, { zeroTimes with behavior := .LoopN 1 1 }) :=
  (C3_times_retry W0 1000 0 zeroTimes 0 1 rfl (by decide)).1 (by decide)

/-- C4: `Action::reinit(start, end_phase, handoff_color)` sets the start tick
and the hand-off color, overwrites the phase offset with `end_phase` exactly
when the auto-advance policy is not `Never` (downgrading `Once` to `Never`),
leaves the phase untouched when the policy is `Never`, and resets the `current`
counter of a `Times` (`LoopN`) repeat policy to 0. -/
theorem C4_reinit (a : Action) (start eph : Nat) (lc : RGB8) :
    (a.reinit start eph lc).action.context.start_tick = start ∧
    (a.reinit start eph lc).action.context.last_color = lc ∧
    (a.reinit start eph lc).action.context.phase_offset_ms =
      (match a.action.context.auto_incr_phase with
       | .Never => a.action.context.phase_offset_ms
       | .Once => eph
       | .Forever => eph) ∧
    (a.reinit start eph lc).action.context.auto_incr_phase =
      (match a.action.context.auto_incr_phase with
       | .Once => .Never
       | x => x) ∧
    (a.reinit start eph lc).behavior =
      (match a.behavior with
       | .LoopN _ tot => .LoopN 0 tot
       | b => b) := by
  unfold Action.reinit Context.reinit
  cases ha : a.action.context.auto_incr_phase <;> cases hb : a.behavior <;>
    simp [ha, hb]

/-- C6 counterexample: building a fade-up step and then setting its duration to
100 ms with `for_ms` leaves `period_ms = 400 = duration * 4`, not
`duration * 2` as the claim states for the builder's duration setter. -/
theorem C6_counterexample :
    ((ActionBuilder.new.fade_up).for_ms 100).act.action.context.period_ms ≠ (100 : ℚ) * 2 ∧
    ((ActionBuilder.new.fade_up).for_ms 100).act.action.context.period_ms = (100 : ℚ) * 4 := by
  have h4 : ((ActionBuilder.new.fade_up).for_ms 100).act.action.context.period_ms
      = (100 : ℚ) * 4 := by
    simp [ActionBuilder.new, ActionBuilder.fade_up, ActionBuilder.for_ms,
      FadeColor.new_fade_up, InnerAction.default, Context.default]
  refine ⟨?_, h4⟩
  rw [h4]
  norm_num

/-- C6 amended: the `FadeColor` constructors set `period_ms = duration_ms * 2`
in the context they receive, while the builder's duration setter `for_ms` sets
`period_ms = duration * 4` for fade steps; the two scaling rules disagree, and
whichever runs last is live. -/
theorem C6_amended (c : Context) (b : ActionBuilder) (d : Nat)
    (hf : ∃ f, b.act.action.kind = .Fade f) :
    (FadeColor.new_fade_up c).2.period_ms = (c.duration_ms : ℚ) * 2 ∧
    (FadeColor.new_fade_down c).2.period_ms = (c.duration_ms : ℚ) * 2 ∧
    (b.for_ms d).act.action.context.period_ms = (d : ℚ) * 4 := by
  obtain ⟨f, hf⟩ := hf
  refine ⟨rfl, rfl, ?_⟩
  unfold ActionBuilder.for_ms
  rw [hf]

/-- C6 amended witness: the two scaling rules evaluated on a concrete fade-up
builder with duration 100 ms. -/
theorem C6_amended_witness :
    (FadeColor.new_fade_up Context.default).2.period_ms =
      ((Context.default).duration_ms : ℚ) * 2 ∧
    (FadeColor.new_fade_down Context.default).2.period_ms =
      ((Context.default).duration_ms : ℚ) * 2 ∧
    ((ActionBuilder.new.fade_up).for_ms 100).act.action.context.period_ms = (100 : ℚ) * 4 :=
  C6_amended Context.default ActionBuilder.new.fade_up 100 ⟨⟨⟨.sin⟩⟩, rfl⟩

lemma Sequence.set_eq (N : Nat) (s : Sequence) (actions : List Action)
    (pol : LoopBehavior) :
    s.set N actions pol =
      { seq := actions.take (min N actions.length), position := 0
        behavior := pol, never_run := true } := by
  unfold Sequence.set Sequence.clear vecExtendFromSlice
  simp

/-- C7: `Sequence::set(actions, policy)` with capacity `N` stores exactly the
first `min(N, actions.len())` actions (silently ignoring the excess — the
capacity-checked extend never fails after the truncating take), resets the
cursor to 0, sets `never_run`, and installs the policy, replacing all prior
content of the sequence. -/
theorem C7_set (N : Nat) (s : Sequence) (actions : List Action) (pol : LoopBehavior) :
    s.set N actions pol =
      { seq := actions.take (min N actions.length), position := 0
        behavior := pol, never_run := true } :=
  Sequence.set_eq N s actions pol

/-- C9: `Sequence::clear()` empties the storage and resets the cursor to 0, and
changes nothing else — the `never_run` flag and the installed repeat policy are
left exactly as they were. -/
theorem C9_clear (s : Sequence) :
    s.clear = { seq := [], position := 0, behavior := s.behavior
                never_run := s.never_run } := rfl

end EasyClaims

section NopAndInvariant

lemma poll_nop_step (W : WaveModel) (tps now : Nat) (s : Sequence)
    (h : s.behavior = .Nop) :
    (s.poll W tps now).1 = none ∧ (s.poll W tps now).2.behavior = .Nop := by
  unfold Sequence.poll
  split
  · exact ⟨rfl, h⟩
  · by_cases hnr : s.never_run <;> simp [hnr, h]

/-- C10: a sequence whose overall policy is `Nop` — as `Sequence::new()`
constructs by default — polls to `None` on every call of any poll schedule,
however long, even when its action list is non-empty and the current action
would produce a color; the `Nop` arm never polls the current action, and the
policy stays `Nop` until a `set` replaces it. -/
theorem C10_nop_always_none (W : WaveModel) (tps : Nat) (s : Sequence)
    (h : s.behavior = .Nop) (ts : List Nat) :
    Sequence.new.behavior = .Nop ∧ ∀ o ∈ pollOuts W tps ts s, o = none := by
  refine ⟨rfl, ?_⟩
  induction ts generalizing s with
  | nil => simp [pollOuts]
  | cons t r ih =>
    have hs := poll_nop_step W tps t s h
    simp only [pollOuts, List.mem_cons]
    rintro o (rfl | ho)
    · exact hs.1
    · exact ih _ hs.2 o ho

/-- C10 witness: a non-empty `Nop` sequence holding a live stay-color step
yields `None` on two consecutive polls. -/
theorem C10_nop_always_none_witness :
    Sequence.new.behavior = .Nop ∧
    ∀ o ∈ pollOuts W0 1000 [0, 5]
      { seq := [holdA 10 ⟨1, 2, 3⟩], position := 0, behavior := .Nop, never_run := true },
      o = none :=
  C10_nop_always_none W0 1000
    { seq := [holdA 10 ⟨1, 2, 3⟩], position := 0, behavior := .Nop, never_run := true }
    rfl [0, 5]

lemma poll_pos_le (W : WaveModel) (tps now : Nat) (s : Sequence)
    (hp : s.position ≤ s.seq.length) :
    (s.poll W tps now).2.position ≤ (s.poll W tps now).2.seq.length := by
  rcases Nat.lt_or_ge s.position s.seq.length with hpos | hpos
  · have hne : s.seq.isEmpty = false := by
      cases hs : s.seq
      · rw [hs] at hpos
        simp at hpos
      · rfl
    unfold Sequence.poll
    rw [if_neg (by simp [hne]; omega)]
    by_cases hnr : s.never_run <;> cases hbeh : s.behavior <;>
      simp only [hnr, hbeh, if_true, if_false, ite_true, ite_false] <;>
      (repeat' split) <;>
      simp_all [List.length_set] <;> omega
  · unfold Sequence.poll
    rw [if_pos (Or.inr hpos)]
    exact hp

/-- C8: the invariant `0 <= position <= len` holds in the initial states made
by `new()` and `empty()`, is (re)established by `set` and `clear`, and is
preserved by `poll` under every repeat policy, including position increments,
wrap-arounds, and the terminal `position = len` state.  (`position` is a `Nat`,
so the lower bound is inherent to the embedding.) -/
theorem C8_position_invariant (W : WaveModel) (tps now N : Nat) (s : Sequence)
    (actions : List Action) (pol : LoopBehavior) :
    Sequence.new.position ≤ Sequence.new.seq.length ∧
    Sequence.empty.position ≤ Sequence.empty.seq.length ∧
    (s.set N actions pol).position ≤ (s.set N actions pol).seq.length ∧
    s.clear.position ≤ s.clear.seq.length ∧
    (s.position ≤ s.seq.length →
      (s.poll W tps now).2.position ≤ (s.poll W tps now).2.seq.length) := by
  refine ⟨Nat.le_refl 0, Nat.le_refl 0, ?_, Nat.zero_le _, poll_pos_le W tps now s⟩
  rw [Sequence.set_eq]
  exact Nat.zero_le _

/-- C8 witness: the invariant conjunction evaluated at a concrete sequence
(two stay-color steps, `OneShot` policy, polled once at tick 0). -/
theorem C8_position_invariant_witness :
    Sequence.new.position ≤ Sequence.new.seq.length ∧
    Sequence.empty.position ≤ Sequence.empty.seq.length ∧
    (Sequence.set 2
        { seq := [holdA 10 ⟨1, 2, 3⟩], position := 0, behavior := .OneShot, never_run := true }
        [holdA 10 ⟨1, 2, 3⟩, holdA 5 ⟨4, 5, 6⟩, holdA 7 ⟨7, 8, 9⟩] .OneShot).position ≤
      (Sequence.set 2
        { seq := [holdA 10 ⟨1, 2, 3⟩], position := 0, behavior := .OneShot, never_run := true }
        [holdA 10 ⟨1, 2, 3⟩, holdA 5 ⟨4, 5, 6⟩, holdA 7 ⟨7, 8, 9⟩] .OneShot).seq.length ∧
    (Sequence.clear
        { seq := [holdA 10 ⟨1, 2, 3⟩], position := 0, behavior := .OneShot, never_run := true }).position ≤
      (Sequence.clear
        { seq := [holdA 10 ⟨1, 2, 3⟩], position := 0, behavior := .OneShot, never_run := true }).seq.length ∧
    (({ seq := [holdA 10 ⟨1, 2, 3⟩], position := 0, behavior := .OneShot, never_run := true }
        : Sequence).position ≤
      ({ seq := [holdA 10 ⟨1, 2, 3⟩], position := 0, behavior := .OneShot, never_run := true }
        : Sequence).seq.length →
      ((Sequence.poll W0 1000 0
        { seq := [holdA 10 ⟨1, 2, 3⟩], position := 0, behavior := .OneShot, never_run := true }).2.position ≤
       (Sequence.poll W0 1000 0
        { seq := [holdA 10 ⟨1, 2, 3⟩], position := 0, behavior := .OneShot, never_run := true }).2.seq.length)) :=
  C8_position_invariant W0 1000 0 2
    { seq := [holdA 10 ⟨1, 2, 3⟩], position := 0, behavior := .OneShot, never_run := true }
    [holdA 10 ⟨1, 2, 3⟩, holdA 5 ⟨4, 5, 6⟩, holdA 7 ⟨7, 8, 9⟩] .OneShot

end NopAndInvariant

section IndexHelpers

lemma getD_set_eq (l : List Action) (i : Nat) (a d : Action) (h : i < l.length) :
    (l.set i a).getD i d = a := by
  induction l generalizing i with
  | nil => simp at h
  | cons x xs ih =>
    cases i with
    | zero => rfl
    | succ j => exact ih j (by simpa using h)

lemma getD_set_ne (l : List Action) {i j : Nat} (a d : Action) (h : i ≠ j) :
    (l.set i a).getD j d = l.getD j d := by
  induction l generalizing i j with
  | nil => simp
  | cons x xs ih =>
    cases i with
    | zero =>
      cases j with
      | zero => exact absurd rfl h
      | succ j2 => rfl
    | succ i2 =>
      cases j with
      | zero => rfl
      | succ j2 => exact ih (fun he => h (by rw [he]))

lemma set_getD_self (l : List Action) (i : Nat) (d : Action) (h : i < l.length) :
    l.set i (l.getD i d) = l := by
  induction l generalizing i with
  | nil => simp at h
  | cons x xs ih =>
    cases i with
    | zero => rfl
    | succ j =>
      have h2 : j < xs.length := by simpa using h
      show x :: xs.set j (xs.getD j d) = x :: xs
      rw [ih j h2]

lemma countP_le_len (p : Nat → Bool) (l : List Nat) : l.countP p ≤ l.length := by
  induction l with
  | nil => simp
  | cons x xs ih =>
    rw [List.countP_cons]
    by_cases hx : p x <;> simp [hx] <;> omega

lemma countP_range_initial (p : Nat → Bool) (N : Nat)
    (hmono : ∀ i j, i ≤ j → p j = true → p i = true) :
    (∀ j, j < (List.range N).countP p → p j = true) ∧
    ((List.range N).countP p < N → p ((List.range N).countP p) = false) := by
  induction N with
  | zero => simp
  | succ n ih =>
    rw [List.range_succ, List.countP_append]
    by_cases hpn : p n = true
    · have hall : ∀ j, j < n → p j = true := fun j hj => hmono j n (le_of_lt hj) hpn
      have hcnt : (List.range n).countP p = n := by
        have h1 : (List.range n).countP p = (List.range n).length := by
          rw [List.countP_eq_length]
          intro a ha
          exact hall a (List.mem_range.mp ha)
        simpa using h1
      have hsing : ([n]).countP p = 1 := by simp [hpn]
      refine ⟨?_, ?_⟩
      · intro j hj
        rw [hcnt, hsing] at hj
        rcases Nat.lt_or_ge j n with h2 | h2
        · exact hall j h2
        · have hj2 : j = n := by omega
          rw [hj2]
          exact hpn
      · intro hlt
        rw [hcnt, hsing] at hlt
        omega
    · have hb : p n = false := by
        cases h : p n
        · rfl
        · exact absurd h hpn
      have hsing : ([n]).countP p = 0 := by simp [hb]
      rw [hsing, Nat.add_zero]
      obtain ⟨ih1, ih2⟩ := ih
      refine ⟨ih1, ?_⟩
      intro _
      rcases Nat.lt_or_ge ((List.range n).countP p) n with hc | hc
      · exact ih2 hc
      · have hle : (List.range n).countP p ≤ n := by
          have h2 := countP_le_len p (List.range n)
          simpa using h2
        have he : (List.range n).countP p = n := le_antisymm hle hc
        rw [he]
        exact hb

lemma uS_mono (ds : List Nat) {i j : Nat} (h : i ≤ j) : uS ds i ≤ uS ds j := by
  induction j with
  | zero =>
    have h0 : i = 0 := Nat.le_zero.mp h
    rw [h0]
  | succ j2 ih =>
    rcases Nat.lt_or_ge i (j2 + 1) with h2 | h2
    · exact le_trans (ih (Nat.lt_succ_iff.mp h2)) (Nat.le_add_right _ _)
    · have he : i = j2 + 1 := le_antisymm h h2
      rw [he]

lemma uS_getD_pos (ds : List Nat) (hpos : ∀ d ∈ ds, 0 < d) (hne : ds ≠ [])
    (j : Nat) : 0 < ds.getD (j % ds.length) 0 := by
  have hlen : 0 < ds.length := List.length_pos.mpr hne
  have hmem : ds.getD (j % ds.length) 0 ∈ ds := by
    rw [List.getD_eq_getElem ds 0 (Nat.mod_lt j hlen)]
    exact List.getElem_mem _
  exact hpos _ hmem

lemma boundary_mono (ds : List Nat) (t0 m : Nat) {i j : Nat} (h : i ≤ j) :
    boundary ds t0 m i ≤ boundary ds t0 m j := by
  unfold boundary
  have h1 := uS_mono ds h
  exact Nat.add_le_add_left (Nat.mul_le_mul_right m h1) t0

lemma boundary_succ (ds : List Nat) (t0 m j : Nat) :
    boundary ds t0 m (j + 1) = boundary ds t0 m j + ds.getD (j % ds.length) 0 * m := by
  unfold boundary
  show t0 + (uS ds j + ds.getD (j % ds.length) 0) * m = _
  rw [Nat.add_mul]
  omega

lemma boundary_strict (ds : List Nat) (t0 m : Nat) (hm : 0 < m)
    (hpos : ∀ d ∈ ds, 0 < d) (hne : ds ≠ []) {i j : Nat} (h : i < j) :
    boundary ds t0 m i < boundary ds t0 m j := by
  have h1 : boundary ds t0 m i < boundary ds t0 m (i + 1) := by
    rw [boundary_succ]
    have h2 := uS_getD_pos ds hpos hne i
    have h3 : 0 < ds.getD (i % ds.length) 0 * m := Nat.mul_pos h2 hm
    omega
  exact lt_of_lt_of_le h1 (boundary_mono ds t0 m h)

lemma gidx_eq_countP (ds : List Nat) (cnt t0 m t : Nat) :
    gidx ds cnt t0 m t =
      (List.range cnt).countP (fun j => decide (boundary ds t0 m (j + 1) ≤ t)) := rfl

lemma gidx_le (ds : List Nat) (cnt t0 m t : Nat) : gidx ds cnt t0 m t ≤ cnt := by
  rw [gidx_eq_countP]
  have h1 := countP_le_len (fun j => decide (boundary ds t0 m (j + 1) ≤ t)) (List.range cnt)
  simpa using h1

lemma gidx_mono_pred (ds : List Nat) (t0 m t : Nat) :
    ∀ i j, i ≤ j → ((fun j => decide (boundary ds t0 m (j + 1) ≤ t)) j = true) →
      ((fun j => decide (boundary ds t0 m (j + 1) ≤ t)) i = true) := by
  intro i j hij hj
  rw [decide_eq_true_eq] at hj
  rw [decide_eq_true_eq]
  exact le_trans (boundary_mono ds t0 m (Nat.add_le_add_right hij 1)) hj

lemma gidx_true_below (ds : List Nat) (cnt t0 m t : Nat) :
    ∀ j, j < gidx ds cnt t0 m t → boundary ds t0 m (j + 1) ≤ t := by
  intro j hj
  rw [gidx_eq_countP] at hj
  have h1 := (countP_range_initial _ cnt (gidx_mono_pred ds t0 m t)).1 j hj
  rwa [decide_eq_true_eq] at h1

lemma gidx_false_at (ds : List Nat) (cnt t0 m t : Nat)
    (hlt : gidx ds cnt t0 m t < cnt) :
    t < boundary ds t0 m (gidx ds cnt t0 m t + 1) := by
  rw [gidx_eq_countP] at hlt
  have h2 := (countP_range_initial _ cnt (gidx_mono_pred ds t0 m t)).2 hlt
  rw [decide_eq_false_iff_not] at h2
  rw [gidx_eq_countP]
  omega

lemma gidx_lower (ds : List Nat) (cnt t0 m t g : Nat)
    (hb : boundary ds t0 m g ≤ t) (hg : g ≤ cnt) : g ≤ gidx ds cnt t0 m t := by
  by_contra hcon
  push_neg at hcon
  have hlt : gidx ds cnt t0 m t < cnt := lt_of_lt_of_le hcon hg
  have h2 := gidx_false_at ds cnt t0 m t hlt
  have h3 : boundary ds t0 m (gidx ds cnt t0 m t + 1) ≤ boundary ds t0 m g :=
    boundary_mono ds t0 m (by omega)
  omega

lemma gidx_upper (ds : List Nat) (cnt t0 m t g : Nat)
    (hb : t < boundary ds t0 m (g + 1)) : gidx ds cnt t0 m t ≤ g := by
  by_contra hcon
  push_neg at hcon
  have h1 := gidx_true_below ds cnt t0 m t g hcon
  omega

lemma gidx_eq (ds : List Nat) (cnt t0 m t g : Nat) (hg : g ≤ cnt)
    (h1 : boundary ds t0 m g ≤ t) (h2 : t < boundary ds t0 m (g + 1)) :
    gidx ds cnt t0 m t = g :=
  le_antisymm (gidx_upper ds cnt t0 m t g h2) (gidx_lower ds cnt t0 m t g h1 hg)

lemma gidx_boundary_le (ds : List Nat) (cnt t0 m t : Nat) (ht0 : t0 ≤ t) :
    boundary ds t0 m (gidx ds cnt t0 m t) ≤ t := by
  rcases Nat.eq_zero_or_pos (gidx ds cnt t0 m t) with hg | hg
  · rw [hg]
    show t0 + uS ds 0 * m ≤ t
    simpa [uS] using ht0
  · have h1 := gidx_true_below ds cnt t0 m t (gidx ds cnt t0 m t - 1) (by omega)
    have h2 : gidx ds cnt t0 m t - 1 + 1 = gidx ds cnt t0 m t := by omega
    rwa [h2] at h1

lemma gidx_full (ds : List Nat) (cnt t0 m t : Nat)
    (h : boundary ds t0 m cnt ≤ t) : gidx ds cnt t0 m t = cnt :=
  le_antisymm (gidx_le ds cnt t0 m t) (gidx_lower ds cnt t0 m t cnt h (le_refl cnt))

lemma gidx_full_inv (ds : List Nat) (cnt t0 m t : Nat) (hcnt : 0 < cnt)
    (h : gidx ds cnt t0 m t = cnt) : boundary ds t0 m cnt ≤ t := by
  have h1 := gidx_true_below ds cnt t0 m t (cnt - 1) (by omega)
  have h2 : cnt - 1 + 1 = cnt := by omega
  rwa [h2] at h1

end IndexHelpers

section PollBranches

lemma guard_false (s : Sequence) (hlt : s.position < s.seq.length) :
    ¬(s.seq.isEmpty = true ∨ s.seq.length ≤ s.position) := by
  rintro (h | h)
  · rw [List.isEmpty_iff] at h
    rw [h] at hlt
    simp at hlt
  · omega

lemma seqPoll_term (W : WaveModel) (tps t : Nat) (s : Sequence)
    (hpos : s.seq.length ≤ s.position) : s.poll W tps t = (none, s) := by
  unfold Sequence.poll
  rw [if_pos (Or.inr hpos)]

lemma seqPoll_oneShot_some (W : WaveModel) (tps t : Nat) (s : Sequence)
    (c : RGB8) (a2 : Action)
    (hlt : s.position < s.seq.length) (hnr : s.never_run = false)
    (hb : s.behavior = .OneShot)
    (hpr : (s.seq.getD s.position default).poll W tps t = (some c, a2)) :
    s.poll W tps t = (some c, { s with seq := s.seq.set s.position a2 }) := by
  unfold Sequence.poll
  rw [if_neg (guard_false s hlt)]
  simp only [hnr, Bool.false_eq_true, if_false, hb, hpr]

lemma seqPoll_oneShot_none_adv (W : WaveModel) (tps t : Nat) (s : Sequence)
    (a2 : Action)
    (hlt : s.position < s.seq.length) (hnr : s.never_run = false)
    (hb : s.behavior = .OneShot)
    (hpr : (s.seq.getD s.position default).poll W tps t = (none, a2))
    (hp1 : s.position + 1 < s.seq.length) :
    s.poll W tps t =
      (let anext := (s.seq.getD (s.position + 1) default).reinit
          (a2.action.context.calc_end tps) a2.action.context.calc_end_phase
          a2.action.context.color
       let pr2 := anext.poll W tps t
       (pr2.1, { s with position := s.position + 1
                        seq := (s.seq.set s.position a2).set (s.position + 1) pr2.2 })) := by
  unfold Sequence.poll
  rw [if_neg (guard_false s hlt)]
  simp only [hnr, Bool.false_eq_true, if_false, hb, hpr]
  rw [getD_set_eq s.seq s.position a2 default hlt]
  rw [if_pos (by simpa using hp1)]
  rw [getD_set_ne s.seq a2 default (by omega)]

lemma seqPoll_oneShot_none_term (W : WaveModel) (tps t : Nat) (s : Sequence)
    (a2 : Action)
    (hlt : s.position < s.seq.length) (hnr : s.never_run = false)
    (hb : s.behavior = .OneShot)
    (hpr : (s.seq.getD s.position default).poll W tps t = (none, a2))
    (hp1 : ¬(s.position + 1 < s.seq.length)) :
    s.poll W tps t =
      (none, { s with position := s.position + 1, seq := s.seq.set s.position a2 }) := by
  unfold Sequence.poll
  rw [if_neg (guard_false s hlt)]
  simp only [hnr, Bool.false_eq_true, if_false, hb, hpr]
  rw [if_neg (by simpa using hp1)]

lemma seqPoll_loopN_some (W : WaveModel) (tps t : Nat) (s : Sequence)
    (cur cyc : Nat) (c : RGB8) (a2 : Action)
    (hlt : s.position < s.seq.length) (hnr : s.never_run = false)
    (hb : s.behavior = .LoopN cur cyc)
    (hpr : (s.seq.getD s.position default).poll W tps t = (some c, a2)) :
    s.poll W tps t = (some c, { s with seq := s.seq.set s.position a2 }) := by
  unfold Sequence.poll
  rw [if_neg (guard_false s hlt)]
  simp only [hnr, Bool.false_eq_true, if_false, hb, hpr]

lemma seqPoll_loopN_none_adv (W : WaveModel) (tps t : Nat) (s : Sequence)
    (cur cyc : Nat) (a2 : Action)
    (hlt : s.position < s.seq.length) (hnr : s.never_run = false)
    (hb : s.behavior = .LoopN cur cyc)
    (hpr : (s.seq.getD s.position default).poll W tps t = (none, a2))
    (hp1 : s.position + 1 < s.seq.length) :
    s.poll W tps t =
      (let anext := (s.seq.getD (s.position + 1) default).reinit
          (a2.action.context.calc_end tps) a2.action.context.calc_end_phase
          a2.action.context.color
       let pr2 := anext.poll W tps t
       (pr2.1, { s with position := s.position + 1
                        seq := (s.seq.set s.position a2).set (s.position + 1) pr2.2 })) := by
  unfold Sequence.poll
  rw [if_neg (guard_false s hlt)]
  simp only [hnr, Bool.false_eq_true, if_false, hb, hpr]
  rw [getD_set_eq s.seq s.position a2 default hlt]
  rw [if_neg (by simpa using Nat.not_le.mpr hp1)]
  rw [getD_set_ne s.seq a2 default (by omega)]

lemma seqPoll_loopN_wrap (W : WaveModel) (tps t : Nat) (s : Sequence)
    (cur cyc : Nat) (a2 : Action)
    (hlt : s.position < s.seq.length) (hnr : s.never_run = false)
    (hb : s.behavior = .LoopN cur cyc)
    (hpr : (s.seq.getD s.position default).poll W tps t = (none, a2))
    (hp1 : s.seq.length ≤ s.position + 1) (hc : cur < cyc) :
    s.poll W tps t =
      (let anext := ((s.seq.set s.position a2).getD 0 default).reinit
          (a2.action.context.calc_end tps) a2.action.context.calc_end_phase
          a2.action.context.color
       let pr2 := anext.poll W tps t
       (pr2.1, { s with position := 0, behavior := .LoopN (cur + 1) cyc
                        seq := (s.seq.set s.position a2).set 0 pr2.2 })) := by
  unfold Sequence.poll
  rw [if_neg (guard_false s hlt)]
  simp only [hnr, Bool.false_eq_true, if_false, hb, hpr]
  rw [getD_set_eq s.seq s.position a2 default hlt]
  rw [if_pos (by simpa using hp1), if_pos hc]

lemma seqPoll_loopN_term2 (W : WaveModel) (tps t : Nat) (s : Sequence)
    (cur cyc : Nat) (a2 : Action)
    (hlt : s.position < s.seq.length) (hnr : s.never_run = false)
    (hb : s.behavior = .LoopN cur cyc)
    (hpr : (s.seq.getD s.position default).poll W tps t = (none, a2))
    (hp1 : s.seq.length ≤ s.position + 1) (hc : ¬(cur < cyc)) :
    s.poll W tps t =
      (none, { s with position := s.position + 1, seq := s.seq.set s.position a2 }) := by
  unfold Sequence.poll
  rw [if_neg (guard_false s hlt)]
  simp only [hnr, Bool.false_eq_true, if_false, hb, hpr]
  rw [if_pos (by simpa using hp1), if_neg hc]

end PollBranches

section StepHelpers

lemma bool_eq_decide {b : Bool} {p : Prop} [Decidable p] (h : b = true ↔ p) :
    b = decide p := by
  by_cases hp : p
  · rw [h.mpr hp, eq_comm, decide_eq_true_eq]
    exact hp
  · have hb : b ≠ true := fun hb2 => hp (h.mp hb2)
    rw [Bool.eq_false_iff.mpr hb, eq_comm, decide_eq_false_iff_not]
    exact hp

lemma next_window_iff (ds : List Nat) (cnt t0 m t g : Nat)
    (hB1 : boundary ds t0 m (g + 1) ≤ t) (hg1 : g + 1 < cnt)
    (hcad : t < boundary ds t0 m cnt → gidx ds cnt t0 m t ≤ g + 1) :
    (t < boundary ds t0 m (g + 2)) ↔ (t < boundary ds t0 m cnt) := by
  constructor
  · intro h
    exact lt_of_lt_of_le h (boundary_mono ds t0 m (by omega))
  · intro hE
    have h1 : g + 1 ≤ gidx ds cnt t0 m t := gidx_lower ds cnt t0 m t (g + 1) hB1 (by omega)
    have h3 : gidx ds cnt t0 m t = g + 1 := le_antisymm (hcad hE) h1
    have h4 := gidx_false_at ds cnt t0 m t (by omega)
    rw [h3] at h4
    exact h4

lemma gidx_next (ds : List Nat) (cnt t0 m t g : Nat)
    (hB1 : boundary ds t0 m (g + 1) ≤ t) (hg1 : g + 1 ≤ cnt)
    (hE : t < boundary ds t0 m cnt)
    (hcad : gidx ds cnt t0 m t ≤ g + 1) :
    gidx ds cnt t0 m t = g + 1 :=
  le_antisymm hcad (gidx_lower ds cnt t0 m t (g + 1) hB1 hg1)

lemma inner_isSome_eval (W : WaveModel) (tps t : Nat) (ia : InnerAction) (B d : Nat)
    (hstart : ia.context.start_tick = B) (hdur : ia.context.duration_ms = d)
    (hm : 0 < tps / 1000) (hBt : B ≤ t) (ht32 : t < u32size) :
    ((ia.poll W tps t).isSome = true) ↔ t < B + d * (tps / 1000) := by
  rw [InnerAction.poll_isSome, hstart, hdur, millis_lt_iff hm hBt ht32]

lemma inner_eq_none_eval (W : WaveModel) (tps t : Nat) (ia : InnerAction) (B d : Nat)
    (hstart : ia.context.start_tick = B) (hdur : ia.context.duration_ms = d)
    (hm : 0 < tps / 1000) (hBt : B ≤ t) (ht32 : t < u32size)
    (h : B + d * (tps / 1000) ≤ t) : ia.poll W tps t = none := by
  rw [← Option.not_isSome_iff_eq_none, Bool.not_eq_true]
  cases hb : (ia.poll W tps t).isSome
  · rfl
  · exfalso
    rw [inner_isSome_eval W tps t ia B d hstart hdur hm hBt ht32] at hb
    omega

lemma divmod_step (n q r : Nat) (h : r + 1 < n) :
    (n * q + r + 1) % n = r + 1 ∧ (n * q + r + 1) / n = q := by
  constructor
  · rw [Nat.add_assoc, Nat.mul_add_mod]
    exact Nat.mod_eq_of_lt h
  · rw [Nat.add_assoc, Nat.mul_add_div (by omega), Nat.div_eq_of_lt h]
    omega

lemma calc_end_eval (tps : Nat) (c : Context) (B d E : Nat)
    (hstart : c.start_tick = B) (hdur : c.duration_ms = d)
    (hBd : B + d * (tps / 1000) ≤ E) (hE : E < u32size) :
    c.calc_end tps = B + d * (tps / 1000) := by
  unfold Context.calc_end
  rw [hstart, hdur]
  rw [wmul_eq (by omega), wadd_eq (by omega)]

end StepHelpers

section StepLemma

lemma run_step (W : WaveModel) (tps : Nat) (ds : List Nat) (k t0 : Nat) (useN : Bool)
    (s : Sequence) (g tl t : Nat)
    (inv : RunInv useN tps ds k t0 s g tl)
    (hm : 0 < tps / 1000)
    (hposd : ∀ d ∈ ds, 0 < d)
    (hend32 : boundary ds t0 (tps / 1000) ((k + 1) * ds.length) < u32size)
    (ht : tl ≤ t) (ht32 : t < u32size)
    (hcad : t < boundary ds t0 (tps / 1000) ((k + 1) * ds.length) →
      gidx ds ((k + 1) * ds.length) t0 (tps / 1000) t ≤ g + 1) :
    ((s.poll W tps t).1.isSome =
      decide (t < boundary ds t0 (tps / 1000) ((k + 1) * ds.length))) ∧
    RunInv useN tps ds k t0 (s.poll W tps t).2
      (if t < boundary ds t0 (tps / 1000) ((k + 1) * ds.length)
        then gidx ds ((k + 1) * ds.length) t0 (tps / 1000) t
        else min (g + 1) ((k + 1) * ds.length)) t := by
  have hn : 0 < ds.length := List.length_pos.mpr inv.ds_ne
  have hcnt0 : 0 < (k + 1) * ds.length := Nat.mul_pos (Nat.succ_pos k) hn
  rcases Nat.lt_or_ge g ((k + 1) * ds.length) with hglt | hgge
  case inr =>
    -- terminal state: position = len, poll returns none and nothing changes
    have hgeq : g = (k + 1) * ds.length := le_antisymm inv.g_le hgge
    have hposn : s.position = ds.length := inv.pos_term hgeq
    have hEtl : boundary ds t0 (tps / 1000) ((k + 1) * ds.length) ≤ tl := by
      by_contra hcon
      push_neg at hcon
      have h1 := inv.time_g hcon
      rw [hgeq] at h1
      exact absurd (gidx_full_inv ds _ t0 _ tl hcnt0 h1.symm) (Nat.not_le.mpr hcon)
    have hEt : boundary ds t0 (tps / 1000) ((k + 1) * ds.length) ≤ t := le_trans hEtl ht
    have hres := seqPoll_term W tps t s (by rw [inv.len_eq, hposn])
    rw [hres]
    constructor
    · simp [Nat.not_lt.mpr hEt]
    · rw [if_neg (Nat.not_lt.mpr hEt)]
      have hmin : min (g + 1) ((k + 1) * ds.length) = g := by rw [hgeq]; omega
      rw [hmin]
      exact ⟨inv.never_run, inv.len_eq, inv.ds_ne, inv.acts_beh, inv.acts_dur, inv.g_le,
        inv.pos_eq, inv.pos_term, inv.start_eq, inv.beh_ok, le_trans inv.time_lo ht,
        fun hc => absurd hc (Nat.not_lt.mpr hEt)⟩
  case inl =>
    have hrpos : s.position = g % ds.length := inv.pos_eq hglt
    have hjlt : g % ds.length < ds.length := Nat.mod_lt g hn
    have hposlt : s.position < s.seq.length := by
      rw [hrpos, inv.len_eq]
      exact hjlt
    have ha_beh : (s.seq.getD s.position default).behavior = .OneShot := by
      rw [hrpos]
      exact inv.acts_beh _ hjlt
    have ha_dur : (s.seq.getD s.position default).action.context.duration_ms
        = ds.getD (g % ds.length) 0 := by
      rw [hrpos]
      exact inv.acts_dur _ hjlt
    have ha_start : (s.seq.getD s.position default).action.context.start_tick
        = boundary ds t0 (tps / 1000) g := by
      rw [hrpos]
      exact inv.start_eq hglt
    have hBg_tl : boundary ds t0 (tps / 1000) g ≤ tl := by
      rcases Nat.lt_or_ge tl (boundary ds t0 (tps / 1000) ((k + 1) * ds.length)) with hc | hc
      · rw [inv.time_g hc]
        exact gidx_boundary_le ds _ t0 _ tl inv.time_lo
      · exact le_trans (boundary_mono ds t0 _ (le_of_lt hglt)) hc
    have hBg_t : boundary ds t0 (tps / 1000) g ≤ t := le_trans hBg_tl ht
    have hB1E : boundary ds t0 (tps / 1000) (g + 1)
        ≤ boundary ds t0 (tps / 1000) ((k + 1) * ds.length) :=
      boundary_mono ds t0 _ (by omega)
    have hBsucc := boundary_succ ds t0 (tps / 1000) g
    have hinner := inner_isSome_eval W tps t (s.seq.getD s.position default).action
      (boundary ds t0 (tps / 1000) g) (ds.getD (g % ds.length) 0) ha_start ha_dur hm hBg_t ht32
    rw [← hBsucc] at hinner
    have hself := set_getD_self s.seq s.position default hposlt
    rcases Nat.lt_or_ge t (boundary ds t0 (tps / 1000) (g + 1)) with hA | hBC
    -- live current step: poll yields a color, state unchanged
    · have hsome : ((s.seq.getD s.position default).action.poll W tps t).isSome = true :=
        hinner.mpr hA
      obtain ⟨c, hc⟩ := Option.isSome_iff_exists.mp hsome
      have hpr : (s.seq.getD s.position default).poll W tps t
          = (some c, s.seq.getD s.position default) := by
        rw [Action.poll_oneShot W tps t _ ha_beh, hc]
      have hres : s.poll W tps t
          = (some c, { s with seq := s.seq.set s.position (s.seq.getD s.position default) }) := by
        by_cases hu : useN = true
        · have hb2 := inv.beh_ok
          rw [if_pos hu] at hb2
          exact seqPoll_loopN_some W tps t s _ k c _ hposlt inv.never_run hb2 hpr
        · have hb2 := inv.beh_ok
          rw [if_neg hu] at hb2
          exact seqPoll_oneShot_some W tps t s c _ hposlt inv.never_run hb2.1 hpr
      rw [hres, hself]
      have htE : t < boundary ds t0 (tps / 1000) ((k + 1) * ds.length) :=
        lt_of_lt_of_le hA hB1E
      have hgix : gidx ds ((k + 1) * ds.length) t0 (tps / 1000) t = g :=
        gidx_eq ds _ t0 _ t g (by omega) hBg_t hA
      constructor
      · simp [htE]
      · rw [if_pos htE, hgix]
        exact ⟨inv.never_run, inv.len_eq, inv.ds_ne, inv.acts_beh, inv.acts_dur, inv.g_le,
          inv.pos_eq, inv.pos_term, inv.start_eq, inv.beh_ok, le_trans inv.time_lo ht,
          fun _ => hgix.symm⟩
    -- current step exhausted: advance with one step of lookahead
    · have hnone : (s.seq.getD s.position default).action.poll W tps t = none :=
        inner_eq_none_eval W tps t (s.seq.getD s.position default).action
          (boundary ds t0 (tps / 1000) g) (ds.getD (g % ds.length) 0)
          ha_start ha_dur hm hBg_t ht32 (by rw [← hBsucc]; exact hBC)
      have hpr : (s.seq.getD s.position default).poll W tps t
          = (none, s.seq.getD s.position default) := by
        rw [Action.poll_oneShot W tps t _ ha_beh, hnone]
      have hcalc : (s.seq.getD s.position default).action.context.calc_end tps
          = boundary ds t0 (tps / 1000) (g + 1) := by
        have h1 := calc_end_eval tps (s.seq.getD s.position default).action.context
          (boundary ds t0 (tps / 1000) g) (ds.getD (g % ds.length) 0)
          (boundary ds t0 (tps / 1000) ((k + 1) * ds.length))
          ha_start ha_dur (by rw [← hBsucc]; exact hB1E) hend32
        rw [h1, ← hBsucc]
      have hdm := Nat.div_add_mod g ds.length
      rcases Nat.lt_or_ge (g % ds.length + 1) ds.length with hr1 | hr1
      -- advance within the pass
      · have hstep := divmod_step ds.length (g / ds.length) (g % ds.length) hr1
        have hsum : ds.length * (g / ds.length) + g % ds.length + 1 = g + 1 := by omega
        have hg1mod : (g + 1) % ds.length = g % ds.length + 1 := by
          rw [← hsum]
          exact hstep.1
        have hg1div : (g + 1) / ds.length = g / ds.length := by
          rw [← hsum]
          exact hstep.2
        have hg1lt : g + 1 < (k + 1) * ds.length := by
          rcases Nat.lt_or_ge (g + 1) ((k + 1) * ds.length) with h | h
          · exact h
          · have he : g + 1 = (k + 1) * ds.length := by omega
            have h0 : (g + 1) % ds.length = 0 := by
              rw [he]
              exact Nat.mul_mod_left _ _
            omega
        have hnext_beh := inv.acts_beh (g % ds.length + 1) hr1
        have hnext_dur := inv.acts_dur (g % ds.length + 1) hr1
        have hadv : s.position + 1 < s.seq.length := by
          rw [hrpos, inv.len_eq]
          exact hr1
        have hres : s.poll W tps t =
            ((((s.seq.getD (s.position + 1) default).reinit
                ((s.seq.getD s.position default).action.context.calc_end tps)
                (s.seq.getD s.position default).action.context.calc_end_phase
                (s.seq.getD s.position default).action.context.color).poll W tps t).1,
             { s with position := s.position + 1
                      seq := (s.seq.set s.position (s.seq.getD s.position default)).set
                        (s.position + 1)
                        (((s.seq.getD (s.position + 1) default).reinit
                          ((s.seq.getD s.position default).action.context.calc_end tps)
                          (s.seq.getD s.position default).action.context.calc_end_phase
                          (s.seq.getD s.position default).action.context.color).poll
                            W tps t).2 }) := by
          by_cases hu : useN = true
          · have hb2 := inv.beh_ok
            rw [if_pos hu] at hb2
            exact seqPoll_loopN_none_adv W tps t s _ k _ hposlt inv.never_run hb2 hpr hadv
          · have hb2 := inv.beh_ok
            rw [if_neg hu] at hb2
            exact seqPoll_oneShot_none_adv W tps t s _ hposlt inv.never_run hb2.1 hpr hadv
        rw [hres, hself, hcalc]
        have hanext_beh : ((s.seq.getD (s.position + 1) default).reinit
            (boundary ds t0 (tps / 1000) (g + 1))
            (s.seq.getD s.position default).action.context.calc_end_phase
            (s.seq.getD s.position default).action.context.color).behavior = .OneShot := by
          apply Action.reinit_behavior_oneShot
          rw [hrpos]
          exact hnext_beh
        have hanext_start : ((s.seq.getD (s.position + 1) default).reinit
            (boundary ds t0 (tps / 1000) (g + 1))
            (s.seq.getD s.position default).action.context.calc_end_phase
            (s.seq.getD s.position default).action.context.color).action.context.start_tick
            = boundary ds t0 (tps / 1000) (g + 1) := Action.reinit_sets_start _ _ _ _
        have hanext_dur : ((s.seq.getD (s.position + 1) default).reinit
            (boundary ds t0 (tps / 1000) (g + 1))
            (s.seq.getD s.position default).action.context.calc_end_phase
            (s.seq.getD s.position default).action.context.color).action.context.duration_ms
            = ds.getD (g % ds.length + 1) 0 := by
          rw [Action.reinit_keeps_duration, hrpos]
          exact hnext_dur
        have hpoll2 := Action.poll_oneShot W tps t _ hanext_beh
        rw [hpoll2]
        have hinner2 := inner_isSome_eval W tps t
          ((s.seq.getD (s.position + 1) default).reinit
            (boundary ds t0 (tps / 1000) (g + 1))
            (s.seq.getD s.position default).action.context.calc_end_phase
            (s.seq.getD s.position default).action.context.color).action
          (boundary ds t0 (tps / 1000) (g + 1)) (ds.getD (g % ds.length + 1) 0)
          hanext_start hanext_dur hm hBC ht32
        have hb2succ := boundary_succ ds t0 (tps / 1000) (g + 1)
        rw [hg1mod] at hb2succ
        rw [← hb2succ] at hinner2
        have hwin := next_window_iff ds ((k + 1) * ds.length) t0 (tps / 1000) t g hBC hg1lt hcad
        constructor
        · exact bool_eq_decide (hinner2.trans hwin)
        · have hgr : (if t < boundary ds t0 (tps / 1000) ((k + 1) * ds.length)
              then gidx ds ((k + 1) * ds.length) t0 (tps / 1000) t
              else min (g + 1) ((k + 1) * ds.length)) = g + 1 := by
            split
            · next htE => exact gidx_next ds _ t0 _ t g hBC (by omega) htE (hcad htE)
            · omega
          rw [hgr]
          refine ⟨inv.never_run, ?_, inv.ds_ne, ?_, ?_, by omega, ?_, ?_, ?_, ?_,
            le_trans inv.time_lo ht, ?_⟩
          · simp [List.length_set, inv.len_eq]
          · intro j hj
            by_cases hjeq : s.position + 1 = j
            · rw [← hjeq, getD_set_eq _ _ _ _ hadv]
              exact hanext_beh
            · rw [getD_set_ne _ _ _ hjeq]
              exact inv.acts_beh j hj
          · intro j hj
            by_cases hjeq : s.position + 1 = j
            · rw [← hjeq, getD_set_eq _ _ _ _ hadv]
              rw [hanext_dur, hrpos]
            · rw [getD_set_ne _ _ _ hjeq]
              exact inv.acts_dur j hj
          · intro _
            show s.position + 1 = (g + 1) % ds.length
            rw [hrpos, hg1mod]
          · intro he
            exact absurd he (by omega)
          · intro _
            rw [hg1mod, ← hrpos]
            rw [getD_set_eq _ _ _ _ hadv]
            exact hanext_start
          · by_cases hu : useN = true
            · have hb2 := inv.beh_ok
              rw [if_pos hu] at hb2
              rw [if_pos hu]
              show s.behavior = _
              rw [hg1div]
              exact hb2
            · have hb2 := inv.beh_ok
              rw [if_neg hu] at hb2
              rw [if_neg hu]
              exact hb2
          · intro htE
            exact (gidx_next ds _ t0 _ t g hBC (by omega) htE (hcad htE)).symm
      -- end of the pass: wrap (Times with budget left) or terminate
      · have hr1e : g % ds.length + 1 = ds.length := le_antisymm (by omega) hr1
        have hq_lt : g / ds.length < k + 1 := by
          rw [Nat.div_lt_iff_lt_mul hn]
          exact hglt
        have hgsucc : g + 1 = (g / ds.length + 1) * ds.length := by
          calc g + 1 = ds.length * (g / ds.length) + (g % ds.length + 1) := by omega
          _ = ds.length * (g / ds.length) + ds.length := by rw [hr1e]
          _ = ds.length * (g / ds.length + 1) := by ring
          _ = (g / ds.length + 1) * ds.length := by ring
        have hnadv : s.seq.length ≤ s.position + 1 := by
          rw [inv.len_eq, hrpos, hr1e]
        by_cases hu : useN = true
        · -- sequence-level Times policy
          have hb2 := inv.beh_ok
          rw [if_pos hu] at hb2
          have hcur : min k (g / ds.length) = g / ds.length :=
            min_eq_right (by omega)
          rcases Nat.lt_or_ge (g / ds.length) k with hqk | hqk
          -- wrap to position 0, one more pass
          · have hg1lt : g + 1 < (k + 1) * ds.length := by
              rw [hgsucc]
              exact (Nat.mul_lt_mul_right hn).mpr (by omega)
            have hg1mod : (g + 1) % ds.length = 0 := by
              rw [hgsucc]
              exact Nat.mul_mod_left _ _
            have hg1div : (g + 1) / ds.length = g / ds.length + 1 := by
              rw [hgsucc]
              exact Nat.mul_div_cancel _ hn
            have hres0 := seqPoll_loopN_wrap W tps t s (min k (g / ds.length)) k
              (s.seq.getD s.position default) hposlt inv.never_run hb2 hpr hnadv
              (by rw [hcur]; exact hqk)
            have hres : s.poll W tps t =
                ((((s.seq.getD 0 default).reinit
                    ((s.seq.getD s.position default).action.context.calc_end tps)
                    (s.seq.getD s.position default).action.context.calc_end_phase
                    (s.seq.getD s.position default).action.context.color).poll W tps t).1,
                 { s with position := 0
                          behavior := .LoopN (min k (g / ds.length) + 1) k
                          seq := (s.seq.set s.position (s.seq.getD s.position default)).set 0
                            (((s.seq.getD 0 default).reinit
                              ((s.seq.getD s.position default).action.context.calc_end tps)
                              (s.seq.getD s.position default).action.context.calc_end_phase
                              (s.seq.getD s.position default).action.context.color).poll
                                W tps t).2 }) := by
              rw [hres0, hself]
            rw [hres, hself, hcalc]
            have hanext_beh : ((s.seq.getD 0 default).reinit
                (boundary ds t0 (tps / 1000) (g + 1))
                (s.seq.getD s.position default).action.context.calc_end_phase
                (s.seq.getD s.position default).action.context.color).behavior = .OneShot := by
              apply Action.reinit_behavior_oneShot
              exact inv.acts_beh 0 hn
            have hanext_start : ((s.seq.getD 0 default).reinit
                (boundary ds t0 (tps / 1000) (g + 1))
                (s.seq.getD s.position default).action.context.calc_end_phase
                (s.seq.getD s.position default).action.context.color).action.context.start_tick
                = boundary ds t0 (tps / 1000) (g + 1) := Action.reinit_sets_start _ _ _ _
            have hanext_dur : ((s.seq.getD 0 default).reinit
                (boundary ds t0 (tps / 1000) (g + 1))
                (s.seq.getD s.position default).action.context.calc_end_phase
                (s.seq.getD s.position default).action.context.color).action.context.duration_ms
                = ds.getD 0 0 := by
              rw [Action.reinit_keeps_duration]
              exact inv.acts_dur 0 hn
            have hpoll2 := Action.poll_oneShot W tps t _ hanext_beh
            rw [hpoll2]
            have hinner2 := inner_isSome_eval W tps t
              ((s.seq.getD 0 default).reinit
                (boundary ds t0 (tps / 1000) (g + 1))
                (s.seq.getD s.position default).action.context.calc_end_phase
                (s.seq.getD s.position default).action.context.color).action
              (boundary ds t0 (tps / 1000) (g + 1)) (ds.getD 0 0)
              hanext_start hanext_dur hm hBC ht32
            have hb2succ := boundary_succ ds t0 (tps / 1000) (g + 1)
            rw [hg1mod] at hb2succ
            rw [← hb2succ] at hinner2
            have hwin := next_window_iff ds ((k + 1) * ds.length) t0 (tps / 1000) t g
              hBC hg1lt hcad
            constructor
            · exact bool_eq_decide (hinner2.trans hwin)
            · have hgr : (if t < boundary ds t0 (tps / 1000) ((k + 1) * ds.length)
                  then gidx ds ((k + 1) * ds.length) t0 (tps / 1000) t
                  else min (g + 1) ((k + 1) * ds.length)) = g + 1 := by
                split
                · next htE => exact gidx_next ds _ t0 _ t g hBC (by omega) htE (hcad htE)
                · omega
              rw [hgr]
              refine ⟨inv.never_run, ?_, inv.ds_ne, ?_, ?_, by omega, ?_, ?_, ?_, ?_,
                le_trans inv.time_lo ht, ?_⟩
              · simp [List.length_set, inv.len_eq]
              · intro j hj
                by_cases hjeq : 0 = j
                · rw [← hjeq, getD_set_eq _ _ _ _ (by rw [inv.len_eq]; exact hn)]
                  exact hanext_beh
                · rw [getD_set_ne _ _ _ hjeq]
                  exact inv.acts_beh j hj
              · intro j hj
                by_cases hjeq : 0 = j
                · rw [← hjeq, getD_set_eq _ _ _ _ (by rw [inv.len_eq]; exact hn)]
                  exact hanext_dur
                · rw [getD_set_ne _ _ _ hjeq]
                  exact inv.acts_dur j hj
              · intro _
                show 0 = (g + 1) % ds.length
                rw [hg1mod]
              · intro he
                exact absurd he (by omega)
              · intro _
                rw [hg1mod]
                rw [getD_set_eq _ _ _ _ (by rw [inv.len_eq]; exact hn)]
                exact hanext_start
              · rw [if_pos hu]
                show LoopBehavior.LoopN (min k (g / ds.length) + 1) k = _
                rw [hcur, hg1div]
                have hmin2 : min k (g / ds.length + 1) = g / ds.length + 1 :=
                  min_eq_right (by omega)
                rw [hmin2]
              · intro htE
                exact (gidx_next ds _ t0 _ t g hBC (by omega) htE (hcad htE)).symm
          -- Times budget exhausted: terminal
          · have hqe : g / ds.length = k := by omega
            have hg1e : g + 1 = (k + 1) * ds.length := by
              rw [hgsucc, hqe]
            have hEt : boundary ds t0 (tps / 1000) ((k + 1) * ds.length) ≤ t := by
              rw [← hg1e]
              exact hBC
            have hres := seqPoll_loopN_term2 W tps t s (min k (g / ds.length)) k
              (s.seq.getD s.position default) hposlt inv.never_run hb2 hpr hnadv
              (by rw [hcur, hqe]; omega)
            rw [hres, hself]
            constructor
            · simp [Nat.not_lt.mpr hEt]
            · rw [if_neg (Nat.not_lt.mpr hEt)]
              have hmin : min (g + 1) ((k + 1) * ds.length) = g + 1 := by omega
              rw [hmin]
              refine ⟨inv.never_run, inv.len_eq, inv.ds_ne, inv.acts_beh, inv.acts_dur,
                by omega, ?_, ?_, ?_, ?_, le_trans inv.time_lo ht, ?_⟩
              · intro he
                exact absurd he (by omega)
              · intro _
                show s.position + 1 = ds.length
                rw [hrpos, hr1e]
              · intro he
                exact absurd he (by omega)
              · rw [if_pos hu]
                show s.behavior = _
                rw [hb2, hg1e]
                have hd2 : (k + 1) * ds.length / ds.length = k + 1 :=
                  Nat.mul_div_cancel _ hn
                rw [hd2, hcur, hqe]
                have hmin2 : min k (k + 1) = k := min_eq_left (by omega)
                rw [hmin2]
              · intro htE
                exact absurd htE (Nat.not_lt.mpr hEt)
        · -- sequence-level OneShot policy: the single pass ends
          have hb2 := inv.beh_ok
          rw [if_neg hu] at hb2
          obtain ⟨hbOne, hk0⟩ := hb2
          have hq0 : g / ds.length = 0 := by
            apply Nat.div_eq_of_lt
            rw [hk0] at hglt
            simpa using hglt
          have hg1e : g + 1 = (k + 1) * ds.length := by
            rw [hgsucc, hq0, hk0]
          have hEt : boundary ds t0 (tps / 1000) ((k + 1) * ds.length) ≤ t := by
            rw [← hg1e]
            exact hBC
          have hres := seqPoll_oneShot_none_term W tps t s
            (s.seq.getD s.position default) hposlt inv.never_run hbOne hpr
            (by omega)
          rw [hres, hself]
          constructor
          · simp [Nat.not_lt.mpr hEt]
          · rw [if_neg (Nat.not_lt.mpr hEt)]
            have hmin : min (g + 1) ((k + 1) * ds.length) = g + 1 := by omega
            rw [hmin]
            refine ⟨inv.never_run, inv.len_eq, inv.ds_ne, inv.acts_beh, inv.acts_dur,
              by omega, ?_, ?_, ?_, ?_, le_trans inv.time_lo ht, ?_⟩
            · intro he
              exact absurd he (by omega)
            · intro _
              show s.position + 1 = ds.length
              rw [hrpos, hr1e]
            · intro he
              exact absurd he (by omega)
            · rw [if_neg hu]
              exact ⟨hbOne, hk0⟩
            · intro htE
              exact absurd htE (Nat.not_lt.mpr hEt)

end StepLemma

section RunSetup

lemma seqPoll_never_run (W : WaveModel) (tps t : Nat) (s : Sequence)
    (hnr : s.never_run = true) (hlt : s.position < s.seq.length) :
    s.poll W tps t = Sequence.poll W tps t
      { s with seq := s.seq.set s.position
                  ((s.seq.getD s.position default).reinit t
                    (s.seq.getD s.position default).action.context.phase_offset_ms BLACK),
               never_run := false } := by
  unfold Sequence.poll
  rw [if_neg (guard_false s hlt)]
  rw [if_neg (guard_false _ (by simpa [List.length_set] using hlt))]
  simp only [hnr, if_true, Bool.false_eq_true, if_false]

lemma getD_mem (as : List Action) (j : Nat) (h : j < as.length) :
    as.getD j default ∈ as := by
  rw [List.getD_eq_getElem as default h]
  exact List.getElem_mem _

lemma map_dur_getD (as : List Action) (j : Nat) (h : j < as.length) :
    (as.map (fun a => a.action.context.duration_ms)).getD j 0 =
      (as.getD j default).action.context.duration_ms := by
  rw [List.getD_eq_getElem _ 0 (by simpa using h), List.getD_eq_getElem _ default h]
  rw [List.getElem_map]

lemma init_inv (tps : Nat) (k t0 : Nat) (useN : Bool)
    (as : List Action) (pol : LoopBehavior)
    (hm : 0 < tps / 1000)
    (hne : as ≠ [])
    (hbeh : ∀ a ∈ as, a.behavior = .OneShot)
    (hdur : ∀ a ∈ as, 0 < a.action.context.duration_ms)
    (hpol : if useN then pol = .LoopN 0 k else pol = .OneShot ∧ k = 0) :
    RunInv useN tps (as.map (fun a => a.action.context.duration_ms)) k t0
      { seq := as.set 0 ((as.getD 0 default).reinit t0
          (as.getD 0 default).action.context.phase_offset_ms BLACK)
        position := 0, behavior := pol, never_run := false } 0 t0 := by
  have hlen : 0 < as.length := List.length_pos.mpr hne
  have hdslen : (as.map (fun a => a.action.context.duration_ms)).length = as.length :=
    List.length_map as _
  have hdsne : as.map (fun a => a.action.context.duration_ms) ≠ [] := by
    intro h
    rw [← List.length_eq_zero] at h
    omega
  have hcnt0 : 0 < (k + 1) * (as.map (fun a => a.action.context.duration_ms)).length := by
    rw [hdslen]
    exact Nat.mul_pos (Nat.succ_pos k) hlen
  refine ⟨rfl, ?_, hdsne, ?_, ?_, by omega, ?_, ?_, ?_, ?_, le_refl t0, ?_⟩
  · show (as.set 0 _).length = _
    rw [List.length_set, hdslen]
  · intro j hj
    rw [hdslen] at hj
    by_cases hj0 : 0 = j
    · rw [← hj0, getD_set_eq _ _ _ _ (by omega)]
      exact Action.reinit_behavior_oneShot _ _ _ _ (hbeh _ (getD_mem as 0 hlen))
    · rw [getD_set_ne _ _ _ hj0]
      exact hbeh _ (getD_mem as j hj)
  · intro j hj
    rw [hdslen] at hj
    by_cases hj0 : 0 = j
    · rw [← hj0, getD_set_eq _ _ _ _ (by omega)]
      rw [Action.reinit_keeps_duration, map_dur_getD as 0 hlen]
    · rw [getD_set_ne _ _ _ hj0]
      exact (map_dur_getD as j hj).symm
  · intro _
    show 0 = 0 % _
    rw [Nat.zero_mod]
  · intro he
    omega
  · intro _
    rw [Nat.zero_mod]
    rw [getD_set_eq _ _ _ _ (by omega)]
    show _ = t0 + uS _ 0 * (tps / 1000)
    rw [Action.reinit_sets_start]
    show t0 = t0 + 0 * (tps / 1000)
    omega
  · by_cases hu : useN = true
    · rw [if_pos hu] at hpol ⊢
      show pol = _
      rw [hpol, Nat.zero_div, Nat.min_zero]
    · rw [if_neg hu] at hpol ⊢
      exact hpol
  · intro _
    symm
    apply Nat.le_zero.mp
    apply gidx_upper
    rw [boundary_succ]
    have h1 : 0 < (as.map (fun a => a.action.context.duration_ms)).getD
        (0 % (as.map (fun a => a.action.context.duration_ms)).length) 0 := by
      rw [hdslen, Nat.zero_mod, map_dur_getD as 0 hlen]
      exact hdur _ (getD_mem as 0 hlen)
    have h2 : 0 < (as.map (fun a => a.action.context.duration_ms)).getD
        (0 % (as.map (fun a => a.action.context.duration_ms)).length) 0 * (tps / 1000) :=
      Nat.mul_pos h1 hm
    show t0 < boundary _ t0 _ 0 + _
    unfold boundary
    simp only [uS]
    omega

lemma run_all (W : WaveModel) (tps : Nat) (ds : List Nat) (k t0 : Nat) (useN : Bool)
    (hm : 0 < tps / 1000)
    (hposd : ∀ d ∈ ds, 0 < d)
    (hend32 : boundary ds t0 (tps / 1000) ((k + 1) * ds.length) < u32size) :
    ∀ (ts : List Nat) (s : Sequence) (g tl : Nat),
    RunInv useN tps ds k t0 s g tl →
    (∀ x ∈ ts, x < u32size) →
    List.Chain' (fun a b => a ≤ b ∧
      (b < boundary ds t0 (tps / 1000) ((k + 1) * ds.length) →
        gidx ds ((k + 1) * ds.length) t0 (tps / 1000) b ≤
          gidx ds ((k + 1) * ds.length) t0 (tps / 1000) a + 1)) (tl :: ts) →
    (pollOuts W tps ts s).map Option.isSome =
      ts.map (fun x => decide (x < boundary ds t0 (tps / 1000) ((k + 1) * ds.length))) := by
  intro ts
  induction ts with
  | nil =>
    intro s g tl _ _ _
    rfl
  | cons t r ih =>
    intro s g tl inv hts hchain
    obtain ⟨⟨ht, hcadlink⟩, hchain2⟩ := List.chain'_cons.mp hchain
    have hcad : t < boundary ds t0 (tps / 1000) ((k + 1) * ds.length) →
        gidx ds ((k + 1) * ds.length) t0 (tps / 1000) t ≤ g + 1 := by
      intro hE
      have htlE : tl < boundary ds t0 (tps / 1000) ((k + 1) * ds.length) :=
        lt_of_le_of_lt ht hE
      rw [inv.time_g htlE]
      exact hcadlink hE
    have hstep := run_step W tps ds k t0 useN s g tl t inv hm hposd hend32 ht
      (hts t (List.mem_cons_self t r)) hcad
    simp only [pollOuts, List.map_cons]
    rw [hstep.1]
    congr 1
    exact ih (s.poll W tps t).2 _ t hstep.2
      (fun x hx => hts x (List.mem_cons_of_mem t hx)) hchain2

lemma uS_take (ds : List Nat) : ∀ j, j ≤ ds.length → uS ds j = (ds.take j).sum := by
  intro j
  induction j with
  | zero => intro _; rfl
  | succ j2 ih =>
    intro h
    have hj2 : j2 < ds.length := by omega
    have hmod : j2 % ds.length = j2 := Nat.mod_eq_of_lt hj2
    show uS ds j2 + ds.getD (j2 % ds.length) 0 = _
    rw [ih (by omega), hmod, List.getD_eq_getElem ds 0 hj2]
    rw [List.sum_take_succ ds j2 hj2]

lemma uS_len (ds : List Nat) : uS ds ds.length = ds.sum := by
  rw [uS_take ds ds.length (le_refl _), List.take_length]

lemma uS_cycle (ds : List Nat) (j : Nat) :
    uS ds (ds.length + j) = ds.sum + uS ds j := by
  induction j with
  | zero =>
    rw [Nat.add_zero, uS_len]
    rfl
  | succ j2 ih =>
    show uS ds (ds.length + j2) + ds.getD ((ds.length + j2) % ds.length) 0 = _
    rw [ih, Nat.add_mod_left]
    show _ = ds.sum + (uS ds j2 + ds.getD (j2 % ds.length) 0)
    omega

lemma uS_total (ds : List Nat) (c : Nat) : uS ds (c * ds.length) = c * ds.sum := by
  induction c with
  | zero =>
    rw [Nat.zero_mul, Nat.zero_mul]
    rfl
  | succ c2 ih =>
    have h1 : (c2 + 1) * ds.length = ds.length + c2 * ds.length := by ring
    rw [h1, uS_cycle, ih]
    ring

end RunSetup

section MainClaims

/-- C1 counterexample: for the one-shot sequence of three 10 ms stay-color
steps (first polled at `t0 = 0`, one tick per ms), the poll at tick 25 —
strictly before `t0 + (d1+d2+d3)` scaled to ticks, which is 30 — already
returns `None`: a single poll performs only one step of lookahead, so a poll
schedule that skips an entire step falsifies the claim as stated. -/
theorem C1_counterexample :
    pollOuts W0 1000 [0, 25]
      { seq := [holdA 10 ⟨1, 2, 3⟩, holdA 10 ⟨1, 2, 3⟩, holdA 10 ⟨1, 2, 3⟩],
        position := 0, behavior := .OneShot, never_run := true }
      = [some ⟨1, 2, 3⟩, none] ∧
    25 < 0 + (10 + 10 + 10) * (1000 / 1000) := by decide

/-- C1 amended: for a one-shot sequence of steps each with its own `OneShot`
policy and positive duration, first polled at `t0`, and for any monotone poll
schedule that never crosses more than one step boundary between consecutive
polls (the cadence condition below, phrased with the active-step index `gidx`),
`Sequence::poll` returns a color at every poll at a tick strictly before
`t0 + (d1 + ... + dn) * (tps/1000)` and `None` at every poll at or after that
tick; on a step boundary the poll reinitializes the next action with the
computed hand-off values and polls it in the same call, so no tick in the
schedule is lost. -/
theorem C1_amended (W : WaveModel) (tps t0 : Nat) (as : List Action) (rest : List Nat)
    (hm : 0 < tps / 1000)
    (hne : as ≠ [])
    (hbeh : ∀ a ∈ as, a.behavior = .OneShot)
    (hdur : ∀ a ∈ as, 0 < a.action.context.duration_ms)
    (hend32 : t0 + (as.map (fun a => a.action.context.duration_ms)).sum * (tps / 1000)
      < u32size)
    (hts : ∀ x ∈ t0 :: rest, x < u32size)
    (hchain : List.Chain' (fun a b => a ≤ b ∧
      (b < t0 + (as.map (fun a => a.action.context.duration_ms)).sum * (tps / 1000) →
        gidx (as.map (fun a => a.action.context.duration_ms)) as.length t0 (tps / 1000) b ≤
          gidx (as.map (fun a => a.action.context.duration_ms)) as.length t0 (tps / 1000) a
            + 1)) (t0 :: rest)) :
    (pollOuts W tps (t0 :: rest)
        { seq := as, position := 0, behavior := .OneShot, never_run := true }).map
          Option.isSome
      = (t0 :: rest).map (fun x => decide (x <
          t0 + (as.map (fun a => a.action.context.duration_ms)).sum * (tps / 1000))) := by
  have hlen : 0 < as.length := List.length_pos.mpr hne
  have hdslen : (as.map (fun a => a.action.context.duration_ms)).length = as.length :=
    List.length_map as _
  have hposd : ∀ d ∈ as.map (fun a => a.action.context.duration_ms), 0 < d := by
    intro d hd
    rw [List.mem_map] at hd
    obtain ⟨a, ha, rfl⟩ := hd
    exact hdur a ha
  have hcnt : (0 + 1) * (as.map (fun a => a.action.context.duration_ms)).length
      = as.length := by
    rw [hdslen]
    ring
  have hEeq : boundary (as.map (fun a => a.action.context.duration_ms)) t0 (tps / 1000)
      ((0 + 1) * (as.map (fun a => a.action.context.duration_ms)).length)
      = t0 + (as.map (fun a => a.action.context.duration_ms)).sum * (tps / 1000) := by
    unfold boundary
    rw [uS_total (as.map (fun a => a.action.context.duration_ms)) (0 + 1)]
    ring
  have hinv := init_inv tps 0 t0 false as .OneShot hm hne hbeh hdur ⟨rfl, rfl⟩
  have hnever := seqPoll_never_run W tps t0
    { seq := as, position := 0, behavior := .OneShot, never_run := true } rfl hlen
  have hswap : pollOuts W tps (t0 :: rest)
      { seq := as, position := 0, behavior := .OneShot, never_run := true }
      = pollOuts W tps (t0 :: rest)
        { seq := as.set 0 ((as.getD 0 default).reinit t0
            (as.getD 0 default).action.context.phase_offset_ms BLACK)
          position := 0, behavior := .OneShot, never_run := false } := by
    simp only [pollOuts]
    rw [hnever]
  rw [hswap]
  rw [← hEeq] at hend32 ⊢
  rw [← hcnt, ← hEeq] at hchain
  exact run_all W tps _ 0 t0 false hm hposd hend32 (t0 :: rest) _ 0 t0 hinv hts
    (List.chain'_cons.mpr ⟨⟨le_refl t0, fun _ => by omega⟩, hchain⟩)

/-- C1 amended witness: two 10 ms stay-color steps at 1000 ticks per second,
polled at ticks 0, 5, 12, 20 — colors through tick 19, `None` from tick 20. -/
theorem C1_amended_witness :
    (pollOuts W0 1000 [0, 5, 12, 20]
        { seq := [holdA 10 ⟨1, 2, 3⟩, holdA 10 ⟨1, 2, 3⟩], position := 0,
          behavior := .OneShot, never_run := true }).map Option.isSome
      = [0, 5, 12, 20].map (fun x => decide (x <
          0 + ([holdA 10 ⟨1, 2, 3⟩, holdA 10 ⟨1, 2, 3⟩].map
            (fun a => a.action.context.duration_ms)).sum * (1000 / 1000))) :=
  C1_amended W0 1000 0 [holdA 10 ⟨1, 2, 3⟩, holdA 10 ⟨1, 2, 3⟩] [5, 12, 20]
    (by decide) (by decide) (by decide) (by decide) (by decide) (by decide)
    (by simp only [List.chain'_cons, List.chain'_singleton, and_true]
        refine ⟨⟨?_, ?_⟩, ⟨?_, ?_⟩, ?_, ?_⟩ <;> decide)

/-- C5 counterexample: with overall policy `Times{current=0, total=1}` over two
10 ms steps (so `k+1 = 2` passes, permanent exhaustion only from tick 40), the
poll at tick 25 returns `None` before the two passes have been executed, and
the `None` does not stay: the poll at tick 26 yields a color again.  The claim
as stated — the whole list runs `k+1` full times before poll returns `None`
and stays `None` — is false for poll schedules that skip an entire step. -/
theorem C5_counterexample :
    pollOuts W0 1000 [0, 25, 26]
      { seq := [holdA 10 ⟨1, 2, 3⟩, holdA 10 ⟨1, 2, 3⟩], position := 0,
        behavior := .LoopN 0 1, never_run := true }
      = [some ⟨1, 2, 3⟩, none, some ⟨1, 2, 3⟩] ∧
    26 < 0 + (1 + 1) * (10 + 10) * (1000 / 1000) := by decide

/-- C5 amended: for a sequence whose overall policy is `Times` (`LoopN`) with
`current = 0` and `total = k`, whose actions each have their own `OneShot`
policy and positive duration, first polled at `t0`, and under any monotone poll
schedule never crossing more than one step boundary per poll, polling yields a
color exactly at ticks strictly before `t0 + (k+1) * (d1+...+dn) * (tps/1000)`
— the whole list is executed `k+1` full times, each wrap reinitializing the
first action with the hand-off values — and `None` at and after that tick,
forever. -/
theorem C5_amended (W : WaveModel) (tps t0 k : Nat) (as : List Action) (rest : List Nat)
    (hm : 0 < tps / 1000)
    (hne : as ≠ [])
    (hbeh : ∀ a ∈ as, a.behavior = .OneShot)
    (hdur : ∀ a ∈ as, 0 < a.action.context.duration_ms)
    (hend32 : t0 + (k + 1) * (as.map (fun a => a.action.context.duration_ms)).sum
      * (tps / 1000) < u32size)
    (hts : ∀ x ∈ t0 :: rest, x < u32size)
    (hchain : List.Chain' (fun a b => a ≤ b ∧
      (b < t0 + (k + 1) * (as.map (fun a => a.action.context.duration_ms)).sum
          * (tps / 1000) →
        gidx (as.map (fun a => a.action.context.duration_ms)) ((k + 1) * as.length) t0
            (tps / 1000) b ≤
          gidx (as.map (fun a => a.action.context.duration_ms)) ((k + 1) * as.length) t0
            (tps / 1000) a + 1)) (t0 :: rest)) :
    (pollOuts W tps (t0 :: rest)
        { seq := as, position := 0, behavior := .LoopN 0 k, never_run := true }).map
          Option.isSome
      = (t0 :: rest).map (fun x => decide (x <
          t0 + (k + 1) * (as.map (fun a => a.action.context.duration_ms)).sum
            * (tps / 1000))) := by
  have hlen : 0 < as.length := List.length_pos.mpr hne
  have hdslen : (as.map (fun a => a.action.context.duration_ms)).length = as.length :=
    List.length_map as _
  have hposd : ∀ d ∈ as.map (fun a => a.action.context.duration_ms), 0 < d := by
    intro d hd
    rw [List.mem_map] at hd
    obtain ⟨a, ha, rfl⟩ := hd
    exact hdur a ha
  have hcnt : (k + 1) * (as.map (fun a => a.action.context.duration_ms)).length
      = (k + 1) * as.length := by
    rw [hdslen]
  have hEeq : boundary (as.map (fun a => a.action.context.duration_ms)) t0 (tps / 1000)
      ((k + 1) * (as.map (fun a => a.action.context.duration_ms)).length)
      = t0 + (k + 1) * (as.map (fun a => a.action.context.duration_ms)).sum
          * (tps / 1000) := by
    unfold boundary
    rw [uS_total (as.map (fun a => a.action.context.duration_ms)) (k + 1)]
  have hinv := init_inv tps k t0 true as (.LoopN 0 k) hm hne hbeh hdur rfl
  have hnever := seqPoll_never_run W tps t0
    { seq := as, position := 0, behavior := .LoopN 0 k, never_run := true } rfl hlen
  have hswap : pollOuts W tps (t0 :: rest)
      { seq := as, position := 0, behavior := .LoopN 0 k, never_run := true }
      = pollOuts W tps (t0 :: rest)
        { seq := as.set 0 ((as.getD 0 default).reinit t0
            (as.getD 0 default).action.context.phase_offset_ms BLACK)
          position := 0, behavior := .LoopN 0 k, never_run := false } := by
    simp only [pollOuts]
    rw [hnever]
  rw [hswap]
  rw [← hEeq] at hend32 ⊢
  rw [← hcnt, ← hEeq] at hchain
  exact run_all W tps _ k t0 true hm hposd hend32 (t0 :: rest) _ 0 t0 hinv hts
    (List.chain'_cons.mpr ⟨⟨le_refl t0, fun _ => by omega⟩, hchain⟩)

/-- C5 amended witness: `Times{0,1}` over two 10 ms steps, polled at ticks
0, 5, 12, 20, 25, 32, 40 — colors through two full passes (ticks below 40),
`None` at 40. -/
theorem C5_amended_witness :
    (pollOuts W0 1000 [0, 5, 12, 20, 25, 32, 40]
        { seq := [holdA 10 ⟨1, 2, 3⟩, holdA 10 ⟨1, 2, 3⟩], position := 0,
          behavior := .LoopN 0 1, never_run := true }).map Option.isSome
      = [0, 5, 12, 20, 25, 32, 40].map (fun x => decide (x <
          0 + (1 + 1) * ([holdA 10 ⟨1, 2, 3⟩, holdA 10 ⟨1, 2, 3⟩].map
            (fun a => a.action.context.duration_ms)).sum * (1000 / 1000))) :=
  C5_amended W0 1000 0 1 [holdA 10 ⟨1, 2, 3⟩, holdA 10 ⟨1, 2, 3⟩] [5, 12, 20, 25, 32, 40]
    (by decide) (by decide) (by decide) (by decide) (by decide) (by decide)
    (by simp only [List.chain'_cons, List.chain'_singleton, and_true]
        refine ⟨⟨?_, ?_⟩, ⟨?_, ?_⟩, ⟨?_, ?_⟩, ⟨?_, ?_⟩, ⟨?_, ?_⟩, ?_, ?_⟩ <;> decide)

end MainClaims

end Choreographer
